import Mathlib

/-!
Verification of the producer/consumer stream state machine of jsxt/stream.

The primary model (`namespace StreamTs`) is a shallow embedding of
`src/src/Stream.ts` (identical, modulo TypeScript compilation, to
`dist/Stream.js`, the module the repository's test-suite imports).  A second
model (`namespace StreamMjs`) embeds `src/Stream.mjs`, the variant that adds
cancellation support.

Promises are modelled explicitly: every consumer-facing call allocates a fresh
promise id (a `Nat`), and the world records, in order, every settlement
(resolution or rejection) of such a promise in `settledLog`.  The asynchronous
completion of the producer-supplied cleanup operation is an explicit event
(`Op.settleOp`), so that every interleaving of controller calls, consumer
calls and cleanup completion is a sequence of operations.
-/

namespace StreamTs

/-- JavaScript error values as they flow through `Stream.ts`: a plain value, or
an `AggregateError(errors)` as constructed in `_doCleanup`. -/
inductive JsError (ε : Type) where
  | simple (e : ε)
  | aggregate (errors : List (JsError ε))

/-- `CompletionValue<R>` from `Stream.ts`:
`{ type: "return", value: R } | { type: "error", reason: any }`. -/
inductive CompletionValue (ρ ε : Type) where
  | ret (value : ρ)
  | err (reason : JsError ε)

/-- The settlement of one consumer-visible promise: resolution with
`{done:false, value}`, resolution with `{done:true, value}`, or rejection. -/
inductive Settlement (τ ρ ε : Type) where
  | yielded (value : τ)
  | done (value : ρ)
  | rejected (reason : JsError ε)

/-- One `.then` callback registered on the `cleanedUp` promise.  Every such
callback in `Stream.ts` does (a subset of) two things, in this order: set
`this._state` to `complete` with the merged completion value, and deliver the
merged completion value to one waiting promise (resolving `{done:true, value}`
for a return completion, rejecting with the reason for an error completion). -/
structure CleanupSub where
  setComplete : Bool
  deliverTo : Option Nat

/-- One call to `_doCleanup` (one invocation of the producer-supplied cleanup
operation) and the deferred `cleanedUp` promise it produces.  While the cleanup
operation is running the instance accumulates subscribers; once it settles the
merged completion value is memoized, and subscribers added afterwards are kept
pending until the microtask queue is flushed. -/
inductive CleanupInst (ρ ε : Type) where
  | running (completion : CompletionValue ρ ε) (subs : List CleanupSub)
  | finished (merged : CompletionValue ρ ε) (pending : List CleanupSub)

/-- How a derived promise follows the promise it was chained on:
`Promise.resolve(p)` adopts `p`'s settlement unchanged (`next()` in the
`waitingForEnd` state), while `p.then(doneTrue, doneTrue)` resolves with a
fixed `{done:true, value}` either way (`return()` in `waitingForEnd`). -/
inductive FollowKind (ρ : Type) where
  | adopt
  | fixedDone (value : ρ)

/-- A registered promise chain: when promise `target` settles, promise `id`
settles according to `kind`. -/
structure Follower (ρ : Type) where
  target : Nat
  id : Nat
  kind : FollowKind ρ

/-- `StreamState<T, R>` from `Stream.ts`.  The waiting queue holds the promise
ids of the enqueued resolvers; `cleanedUp` fields hold the index of the
corresponding cleanup instance; the constant `cleanupOperation` fields are
implicit (an instance is appended exactly when `_doCleanup` invokes it). -/
inductive StreamState (τ ρ ε : Type) where
  | maybeQueued (waitingQueue : List Nat) (itemQueue : List τ)
  | waitingForValue (waitingQueue : List Nat) (itemQueue : List τ)
  | endQueued (itemQueue : List τ) (completionValue : CompletionValue ρ ε) (cleanedUp : Nat)
  | waitingForEnd (waitingQueue : List Nat) (endWaiter : Nat)
      (completionValue : CompletionValue ρ ε)
  | waitingForCleanupToFinish (cleanedUp : Nat) (completionValue : CompletionValue ρ ε)
  | complete (completionValue : CompletionValue ρ ε)

/-- The whole observable state of one `Stream` instance together with the
promise bookkeeping.  `cleanups.length` counts the invocations of the
producer-supplied cleanup operation (one per `_doCleanup` call). -/
structure World (τ ρ ε : Type) where
  state : StreamState τ ρ ε
  cleanups : List (CleanupInst ρ ε)
  settledLog : List (Nat × Settlement τ ρ ε)
  followers : List (Follower ρ)
  nextId : Nat

/-- Split the follower list into those chained on promise `id` and the rest,
preserving registration order. -/
def splitFollowers {ρ : Type} : List (Follower ρ) → Nat → List (Follower ρ) × List (Follower ρ)
  | [], _ => ([], [])
  | f :: fs, id =>
      let rest := splitFollowers fs id
      if f.target = id then (f :: rest.1, rest.2) else (rest.1, f :: rest.2)

theorem splitFollowers_length {ρ : Type} (fs : List (Follower ρ)) (id : Nat) :
    (splitFollowers fs id).1.length + (splitFollowers fs id).2.length = fs.length := by
  induction fs with
  | nil => rfl
  | cons f fs ih =>
      simp only [splitFollowers]
      by_cases h : f.target = id
      · simp only [if_pos h, List.length_cons]
        omega
      · simp only [if_neg h, List.length_cons]
        omega

/-- The settlement a follower receives when its target settles with `s`. -/
def followSettle {τ ρ ε : Type} (kind : FollowKind ρ) (s : Settlement τ ρ ε) :
    Settlement τ ρ ε :=
  match kind with
  | .adopt => s
  | .fixedDone r => .done r

/-- Propagate a batch of settlements through the registered promise chains,
producing the full ordered settlement list and the remaining (unfired)
followers. -/
def propagate {τ ρ ε : Type} :
    List (Follower ρ) → List (Nat × Settlement τ ρ ε) →
    List (Nat × Settlement τ ρ ε) × List (Follower ρ)
  | fs, [] => ([], fs)
  | fs, (id, s) :: rest =>
      let split := splitFollowers fs id
      let out := propagate split.2 (rest ++ split.1.map fun f => (f.id, followSettle f.kind s))
      ((id, s) :: out.1, out.2)
  termination_by fs q => fs.length + q.length
  decreasing_by
    have h := splitFollowers_length fs id
    simp only [List.length_append, List.length_map, List.length_cons]
    omega

/-- Settle promise `id` with `s` (and fire any promises chained on it). -/
def settlePromise {τ ρ ε : Type} (w : World τ ρ ε) (id : Nat) (s : Settlement τ ρ ε) :
    World τ ρ ε :=
  let out := propagate w.followers [(id, s)]
  { w with settledLog := w.settledLog ++ out.1, followers := out.2 }

/-- Allocate a fresh promise id (`new Deferred()`). -/
def fresh {τ ρ ε : Type} (w : World τ ρ ε) : Nat × World τ ρ ε :=
  (w.nextId, { w with nextId := w.nextId + 1 })

/-- Invoke the producer-supplied cleanup operation (`this._doCleanup(...)`):
a new cleanup instance begins running with the given pending completion value.
Returns the index of the new `cleanedUp` promise. -/
def doCleanupStart {τ ρ ε : Type} (w : World τ ρ ε) (completion : CompletionValue ρ ε) :
    Nat × World τ ρ ε :=
  (w.cleanups.length, { w with cleanups := w.cleanups ++ [.running completion []] })

/-- Register a `.then` callback on the `cleanedUp` promise of instance `i`. -/
def subscribeCleanup {τ ρ ε : Type} (i : Nat) (sub : CleanupSub) (w : World τ ρ ε) :
    World τ ρ ε :=
  match w.cleanups.get? i with
  | some (.running c subs) =>
      { w with cleanups := w.cleanups.set i (.running c (subs ++ [sub])) }
  | some (.finished m pending) =>
      { w with cleanups := w.cleanups.set i (.finished m (pending ++ [sub])) }
  | none => w

/-- The completion-merging rule of `_doCleanup`: on cleanup success the pending
completion is delivered unchanged; if the cleanup operation throws while a
return value was pending the result becomes an error carrying the cleanup
error; if an error was already pending the two are aggregated
(`new AggregateError([completionValue.reason, cleanupError])`). -/
def doCleanupMerge {ρ ε : Type} (completionValue : CompletionValue ρ ε) :
    Option (JsError ε) → CompletionValue ρ ε
  | none => completionValue
  | some cleanupError =>
      match completionValue with
      | .ret _ => .err cleanupError
      | .err reason => .err (.aggregate [reason, cleanupError])

/-- How a merged completion value settles a promise that receives it:
`{done:true, value}` for a return, a rejection for an error. -/
def settlementOf {τ ρ ε : Type} (c : CompletionValue ρ ε) : Settlement τ ρ ε :=
  match c with
  | .ret v => .done v
  | .err reason => .rejected reason

/-- Run one `cleanedUp.then` callback: optionally set the state to `complete`
with the merged value, then optionally deliver the merged value to a waiting
promise. -/
def applySub {τ ρ ε : Type} (merged : CompletionValue ρ ε) (w : World τ ρ ε)
    (sub : CleanupSub) : World τ ρ ε :=
  let w1 := if sub.setComplete then { w with state := .complete merged } else w
  match sub.deliverTo with
  | some id => settlePromise w1 id (settlementOf merged)
  | none => w1

/-- The cleanup operation of instance `i` finishes (`outcome = none` for
success, `some e` when it threw `e`): the merged completion value is memoized
and every registered callback runs in registration order.  Settling an already
finished instance is impossible (the deferred resolves once) and is a no-op. -/
def settleCleanup {τ ρ ε : Type} (i : Nat) (outcome : Option (JsError ε))
    (w : World τ ρ ε) : World τ ρ ε :=
  match w.cleanups.get? i with
  | some (.running completion subs) =>
      let merged := doCleanupMerge completion outcome
      let w1 := { w with cleanups := w.cleanups.set i (.finished merged []) }
      subs.foldl (applySub merged) w1
  | _ => w

/-- Run the callbacks that were registered on instance `i` after it had
already settled (they fire on the next microtask). -/
def flushCleanup {τ ρ ε : Type} (i : Nat) (w : World τ ρ ε) : World τ ρ ε :=
  match w.cleanups.get? i with
  | some (.finished merged pending) =>
      let w1 := { w with cleanups := w.cleanups.set i (.finished merged []) }
      pending.foldl (applySub merged) w1
  | _ => w

end StreamTs
namespace StreamTs

/-- The controller's `yield` (`_createYield` in `Stream.ts`).  In `maybeQueued`
the value is appended to the item queue; in `waitingForValue` the oldest
waiting resolver is dequeued and resolved with `{done:false, value}` (falling
back to `maybeQueued` when the waiting queue empties); in `waitingForEnd` the
oldest waiter is resolved likewise and, when the waiting queue empties, cleanup
starts and a callback is registered that sets the state to `complete` and
settles the end waiter from the merged completion value.  In the remaining
states the call is ignored.  (Dequeuing from an empty queue would throw in the
source; those states are unreachable and modelled as no-ops.) -/
def ctrlYield {τ ρ ε : Type} (value : τ) (w : World τ ρ ε) : World τ ρ ε :=
  match w.state with
  | .maybeQueued wq iq => { w with state := .maybeQueued wq (iq ++ [value]) }
  | .waitingForValue wq iq =>
      match wq with
      | [] => w
      | resolver :: rest =>
          let w1 :=
            if rest.isEmpty then { w with state := .maybeQueued rest iq }
            else { w with state := .waitingForValue rest iq }
          settlePromise w1 resolver (.yielded value)
  | .waitingForEnd wq endWaiter completionValue =>
      match wq with
      | [] => w
      | resolver :: rest =>
          let w1 := settlePromise w resolver (.yielded value)
          if rest.isEmpty then
            let (i, w2) := doCleanupStart w1 completionValue
            let w3 := { w2 with state := .waitingForCleanupToFinish i completionValue }
            subscribeCleanup i ⟨true, some endWaiter⟩ w3
          else { w1 with state := .waitingForEnd rest endWaiter completionValue }
  | .complete _ | .endQueued _ _ _ | .waitingForCleanupToFinish _ _ => w

/-- The common body of `_createReturn` and `_createThrow` (their code is
identical except for the completion value they build).  From `maybeQueued` the
state becomes `endQueued` and cleanup starts; from `waitingForValue` or
`waitingForEnd` cleanup starts, every queued resolver (and the end waiter, if
present) is subscribed to receive the merged completion value, and the state
becomes `waitingForCleanupToFinish`.  In every other state the call is a
no-op (the first completion value wins). -/
def completeFromController {τ ρ ε : Type} (completionValue : CompletionValue ρ ε)
    (w : World τ ρ ε) : World τ ρ ε :=
  match w.state with
  | .maybeQueued _wq iq =>
      let (i, w1) := doCleanupStart w completionValue
      { w1 with state := .endQueued iq completionValue i }
  | .waitingForValue wq _iq =>
      let (i, w1) := doCleanupStart w completionValue
      let w2 := wq.foldl (fun acc r => subscribeCleanup i ⟨false, some r⟩ acc) w1
      { w2 with state := .waitingForCleanupToFinish i completionValue }
  | .waitingForEnd wq endWaiter _c =>
      let (i, w1) := doCleanupStart w completionValue
      let w2 := wq.foldl (fun acc r => subscribeCleanup i ⟨false, some r⟩ acc) w1
      let w3 := subscribeCleanup i ⟨false, some endWaiter⟩ w2
      { w3 with state := .waitingForCleanupToFinish i completionValue }
  | _ => w

/-- The controller's `return` (`_createReturn`). -/
def ctrlReturn {τ ρ ε : Type} (value : ρ) (w : World τ ρ ε) : World τ ρ ε :=
  completeFromController (.ret value) w

/-- The controller's `throw` (`_createThrow`). -/
def ctrlThrow {τ ρ ε : Type} (reason : JsError ε) (w : World τ ρ ε) : World τ ρ ε :=
  completeFromController (.err reason) w

/-- `Stream.prototype.next`.  A fresh promise id is allocated for the returned
promise; its eventual settlement is recorded in `settledLog`. -/
def next {τ ρ ε : Type} (w : World τ ρ ε) : World τ ρ ε :=
  match w.state with
  | .maybeQueued wq iq =>
      match iq with
      | value :: iq' =>
          -- maybeQueued with a non-empty item queue: dequeue and resolve now
          let (n, w1) := fresh w
          settlePromise { w1 with state := .maybeQueued wq iq' } n (.yielded value)
      | [] =>
          -- enqueue a new waiting resolver
          let (n, w1) := fresh w
          { w1 with state := .waitingForValue (wq ++ [n]) [] }
  | .waitingForValue wq iq =>
      let (n, w1) := fresh w
      { w1 with state := .waitingForValue (wq ++ [n]) iq }
  | .endQueued iq completionValue cleanedUp =>
      match iq with
      | [] =>
          -- drain finished: wait for cleanup, then complete and deliver
          let (n, w1) := fresh w
          let w2 := { w1 with state := .waitingForCleanupToFinish cleanedUp completionValue }
          subscribeCleanup cleanedUp ⟨true, some n⟩ w2
      | value :: iq' =>
          let (n, w1) := fresh w
          settlePromise { w1 with state := .endQueued iq' completionValue cleanedUp }
            n (.yielded value)
  | .waitingForEnd _wq endWaiter _c =>
      -- Promise.resolve(state.endWaiter.promise): the result adopts endWaiter
      let (n, w1) := fresh w
      { w1 with followers := w1.followers ++ [⟨endWaiter, n, .adopt⟩] }
  | .waitingForCleanupToFinish cleanedUp _c =>
      let (n, w1) := fresh w
      subscribeCleanup cleanedUp ⟨false, some n⟩ w1
  | .complete completionValue =>
      let (n, w1) := fresh w
      settlePromise w1 n (settlementOf completionValue)

/-- `Stream.prototype.return`.  In the `complete` state with an error
completion the stored reason is thrown synchronously (modelled by
`Except.error`); every other branch returns the updated world. -/
def streamReturn {τ ρ ε : Type} (returnValue : ρ) (w : World τ ρ ε) :
    Except (JsError ε) (World τ ρ ε) :=
  let completionValue : CompletionValue ρ ε := .ret returnValue
  match w.state with
  | .maybeQueued _wq _iq =>
      -- buffered values are discarded; cleanup starts immediately
      let (i, w1) := doCleanupStart w completionValue
      let w2 := { w1 with state := .waitingForCleanupToFinish i completionValue }
      let (n, w3) := fresh w2
      .ok (subscribeCleanup i ⟨true, some n⟩ w3)
  | .waitingForValue wq _iq =>
      -- a fresh endWaiter deferred becomes the returned promise
      let (n, w1) := fresh w
      .ok { w1 with state := .waitingForEnd wq n (.ret returnValue) }
  | .waitingForEnd _wq endWaiter _c =>
      -- endWaiter.promise.then(doneTrue, doneTrue)
      let (n, w1) := fresh w
      .ok { w1 with followers := w1.followers ++ [⟨endWaiter, n, .fixedDone returnValue⟩] }
  | .endQueued _iq storedCompletion cleanedUp =>
      -- buffered values are discarded; the stored completion is delivered
      let w1 := { w with state := .waitingForCleanupToFinish cleanedUp storedCompletion }
      let (n, w2) := fresh w1
      .ok (subscribeCleanup cleanedUp ⟨true, some n⟩ w2)
  | .waitingForCleanupToFinish cleanedUp _c =>
      let (n, w1) := fresh w
      .ok (subscribeCleanup cleanedUp ⟨true, some n⟩ w1)
  | .complete (.ret v) =>
      let (n, w1) := fresh w
      .ok (settlePromise w1 n (.done v))
  | .complete (.err reason) => .error reason

/-- The operations that can act on a stream after construction: the three
controller methods, the two consumer methods, and the asynchronous events of
the cleanup operation finishing and of late `.then` callbacks being flushed. -/
inductive Op (τ ρ ε : Type) where
  | yieldOp (value : τ)
  | throwOp (reason : JsError ε)
  | returnOp (value : ρ)
  | nextOp
  | sreturnOp (value : ρ)
  | settleOp (i : Nat) (outcome : Option (JsError ε))
  | flushOp (i : Nat)

/-- Apply one operation.  A synchronous throw from `Stream.prototype.return`
propagates to the caller and leaves the stream unchanged. -/
def step {τ ρ ε : Type} (op : Op τ ρ ε) (w : World τ ρ ε) : World τ ρ ε :=
  match op with
  | .yieldOp v => ctrlYield v w
  | .throwOp e => ctrlThrow e w
  | .returnOp v => ctrlReturn v w
  | .nextOp => next w
  | .sreturnOp v =>
      match streamReturn v w with
      | .ok w' => w'
      | .error _ => w
  | .settleOp i outcome => settleCleanup i outcome w
  | .flushOp i => flushCleanup i w

/-- Run a sequence of operations. -/
def run {τ ρ ε : Type} : List (Op τ ρ ε) → World τ ρ ε → World τ ρ ε
  | [], w => w
  | op :: ops, w => run ops (step op w)

/-- The state of a freshly constructed stream whose initializer made no
synchronous controller calls: `maybeQueued` with empty queues, no cleanup
started, nothing settled. -/
def initWorld (τ ρ ε : Type) : World τ ρ ε :=
  { state := .maybeQueued [] []
    cleanups := []
    settledLog := []
    followers := []
    nextId := 0 }

/-- The `Stream` constructor: the initializer runs its synchronous controller
calls against the initial state, whose placeholder `cleanupOperation` records
(in `cleanupComplete`) whether `_doCleanup` was invoked during initialization.
If it was — i.e. some cleanup instance exists — the state is asserted to be
`endQueued` and is replaced by `waitingForCleanupToFinish` (the buffered item
queue is discarded here), the real cleanup operation is run through the
pending deferred, and a callback setting the state to `complete` is
registered.  Otherwise the placeholder is simply swapped for the real cleanup
operation, leaving the state unchanged. -/
def constructStream {τ ρ ε : Type} (initOps : List (Op τ ρ ε)) : World τ ρ ε :=
  let w := run initOps (initWorld τ ρ ε)
  if w.cleanups.length ≠ 0 then
    match w.state with
    | .endQueued _iq completionValue i =>
        let w1 := { w with state := .waitingForCleanupToFinish i completionValue }
        subscribeCleanup i ⟨true, none⟩ w1
    | _ => w  -- `throw new Error("Impossible state")`; unreachable
  else w

end StreamTs
namespace StreamTs

theorem run_append {τ ρ ε : Type} (a b : List (Op τ ρ ε)) (w : World τ ρ ε) :
    run (a ++ b) w = run b (run a w) := by
  induction a generalizing w with
  | nil => rfl
  | cons op ops ih => simp [run, ih]

@[simp] theorem settlePromise_state {τ ρ ε : Type} (w : World τ ρ ε) (id : Nat)
    (s : Settlement τ ρ ε) : (settlePromise w id s).state = w.state := rfl

@[simp] theorem settlePromise_cleanups {τ ρ ε : Type} (w : World τ ρ ε) (id : Nat)
    (s : Settlement τ ρ ε) : (settlePromise w id s).cleanups = w.cleanups := rfl

@[simp] theorem settlePromise_nextId {τ ρ ε : Type} (w : World τ ρ ε) (id : Nat)
    (s : Settlement τ ρ ε) : (settlePromise w id s).nextId = w.nextId := rfl

@[simp] theorem subscribeCleanup_state {τ ρ ε : Type} (i : Nat) (sub : CleanupSub)
    (w : World τ ρ ε) : (subscribeCleanup i sub w).state = w.state := by
  unfold subscribeCleanup
  split <;> rfl

@[simp] theorem subscribeCleanup_cleanups_length {τ ρ ε : Type} (i : Nat) (sub : CleanupSub)
    (w : World τ ρ ε) : (subscribeCleanup i sub w).cleanups.length = w.cleanups.length := by
  unfold subscribeCleanup
  split <;> simp

@[simp] theorem subscribeCleanup_settledLog {τ ρ ε : Type} (i : Nat) (sub : CleanupSub)
    (w : World τ ρ ε) : (subscribeCleanup i sub w).settledLog = w.settledLog := by
  unfold subscribeCleanup
  split <;> rfl

@[simp] theorem subscribeCleanup_nextId {τ ρ ε : Type} (i : Nat) (sub : CleanupSub)
    (w : World τ ρ ε) : (subscribeCleanup i sub w).nextId = w.nextId := by
  unfold subscribeCleanup
  split <;> rfl

@[simp] theorem applySub_cleanups {τ ρ ε : Type} (m : CompletionValue ρ ε)
    (w : World τ ρ ε) (sub : CleanupSub) : (applySub m w sub).cleanups = w.cleanups := by
  unfold applySub
  split <;> split <;> rfl

theorem applySub_state {τ ρ ε : Type} (m : CompletionValue ρ ε) (w : World τ ρ ε)
    (sub : CleanupSub) :
    (applySub m w sub).state = if sub.setComplete then .complete m else w.state := by
  unfold applySub
  split <;> split <;> simp_all

/-- Whether the stream has entered a draining/cleaning state (one of
`endQueued`, `waitingForCleanupToFinish`, `complete`) — exactly the states
whose creation invokes `_doCleanup`. -/
def cleanupStarted {τ ρ ε : Type} : StreamState τ ρ ε → Bool
  | .maybeQueued _ _ => false
  | .waitingForValue _ _ => false
  | .waitingForEnd _ _ _ => false
  | .endQueued _ _ _ => true
  | .waitingForCleanupToFinish _ _ => true
  | .complete _ => true



/-- The queue half of the invariant: in `maybeQueued` the waiting queue is
empty; in `waitingForValue` the item queue is empty (so buffered values and
waiting requests never coexist). -/
def queuesOk {τ ρ ε : Type} : StreamState τ ρ ε → Bool
  | .maybeQueued wq _ => wq.isEmpty
  | .waitingForValue _ iq => iq.isEmpty
  | _ => true

/-- The inductive invariant of the state machine, as a computable check: the
producer-supplied cleanup operation has been invoked exactly once if the
stream has entered a draining/cleaning state and never otherwise, and the two
queues never hold values and waiters at the same time. -/
def invHolds {τ ρ ε : Type} (w : World τ ρ ε) : Bool :=
  (w.cleanups.length == if cleanupStarted w.state then 1 else 0) && queuesOk w.state

theorem queuesOk_of_started {τ ρ ε : Type} (s : StreamState τ ρ ε)
    (h : cleanupStarted s = true) : queuesOk s = true := by
  cases s <;> simp_all [cleanupStarted, queuesOk]

theorem foldl_applySub_cleanups {τ ρ ε : Type} (m : CompletionValue ρ ε)
    (subs : List CleanupSub) (w : World τ ρ ε) :
    (subs.foldl (applySub m) w).cleanups = w.cleanups := by
  induction subs generalizing w with
  | nil => rfl
  | cons s subs ih => simp [List.foldl_cons, ih]

theorem foldl_applySub_started {τ ρ ε : Type} (m : CompletionValue ρ ε)
    (subs : List CleanupSub) (w : World τ ρ ε)
    (h : cleanupStarted w.state = true) :
    cleanupStarted (subs.foldl (applySub m) w).state = true := by
  induction subs generalizing w with
  | nil => exact h
  | cons s subs ih =>
      apply ih
      rw [applySub_state]
      split
      · rfl
      · exact h

theorem foldl_subscribe_cleanups_length {τ ρ ε : Type} (i : Nat) (rs : List Nat)
    (w : World τ ρ ε) :
    ((rs.foldl (fun acc r => subscribeCleanup i ⟨false, some r⟩ acc) w)).cleanups.length
      = w.cleanups.length := by
  induction rs generalizing w with
  | nil => rfl
  | cons r rs ih => simp [List.foldl_cons, ih]

theorem foldl_subscribe_state {τ ρ ε : Type} (i : Nat) (rs : List Nat)
    (w : World τ ρ ε) :
    ((rs.foldl (fun acc r => subscribeCleanup i ⟨false, some r⟩ acc) w)).state
      = w.state := by
  induction rs generalizing w with
  | nil => rfl
  | cons r rs ih => simp [List.foldl_cons, ih]

theorem inv_init (τ ρ ε : Type) : invHolds (initWorld τ ρ ε) = true := rfl

theorem inv_step {τ ρ ε : Type} (op : Op τ ρ ε) (w : World τ ρ ε)
    (h : invHolds w = true) : invHolds (step op w) = true := by
  cases op with
  | yieldOp v =>
      simp only [step, ctrlYield]
      cases hs : w.state with
      | maybeQueued wq iq =>
          simp only [hs]
          simp_all [invHolds, queuesOk, cleanupStarted]
      | waitingForValue wq iq =>
          simp only [hs]
          cases wq with
          | nil => simp_all [invHolds, queuesOk, cleanupStarted]
          | cons r rest =>
              cases rest with
              | nil => simp_all [invHolds, queuesOk, cleanupStarted, settlePromise]
              | cons r2 rest2 => simp_all [invHolds, queuesOk, cleanupStarted, settlePromise]
      | waitingForEnd wq e c =>
          simp only [hs]
          cases wq with
          | nil => simp_all [invHolds, queuesOk, cleanupStarted]
          | cons r rest =>
              cases rest with
              | nil =>
                  simp_all [invHolds, queuesOk, cleanupStarted, settlePromise,
                    doCleanupStart, List.length_eq_zero]
              | cons r2 rest2 =>
                  simp_all [invHolds, queuesOk, cleanupStarted, settlePromise]
      | endQueued iq c i =>
          simp only [hs]
          simp_all [invHolds, queuesOk, cleanupStarted]
      | waitingForCleanupToFinish i c =>
          simp only [hs]
          simp_all [invHolds, queuesOk, cleanupStarted]
      | complete c =>
          simp only [hs]
          simp_all [invHolds, queuesOk, cleanupStarted]
  | throwOp e =>
      simp only [step, ctrlThrow, completeFromController]
      cases hs : w.state with
      | maybeQueued wq iq =>
          simp only [hs]
          simp_all [invHolds, queuesOk, cleanupStarted, doCleanupStart, List.length_eq_zero]
      | waitingForValue wq iq =>
          simp only [hs]
          simp only [invHolds, foldl_subscribe_state, foldl_subscribe_cleanups_length]
          simp_all [invHolds, queuesOk, cleanupStarted, doCleanupStart, List.length_eq_zero]
      | waitingForEnd wq e0 c =>
          simp only [hs]
          simp only [invHolds, subscribeCleanup_state, subscribeCleanup_cleanups_length,
            foldl_subscribe_state, foldl_subscribe_cleanups_length]
          simp_all [invHolds, queuesOk, cleanupStarted, doCleanupStart, List.length_eq_zero]
      | endQueued iq c i =>
          simp only [hs]
          simp_all [invHolds, queuesOk, cleanupStarted]
      | waitingForCleanupToFinish i c =>
          simp only [hs]
          simp_all [invHolds, queuesOk, cleanupStarted]
      | complete c =>
          simp only [hs]
          simp_all [invHolds, queuesOk, cleanupStarted]
  | returnOp v =>
      simp only [step, ctrlReturn, completeFromController]
      cases hs : w.state with
      | maybeQueued wq iq =>
          simp only [hs]
          simp_all [invHolds, queuesOk, cleanupStarted, doCleanupStart, List.length_eq_zero]
      | waitingForValue wq iq =>
          simp only [hs]
          simp only [invHolds, foldl_subscribe_state, foldl_subscribe_cleanups_length]
          simp_all [invHolds, queuesOk, cleanupStarted, doCleanupStart, List.length_eq_zero]
      | waitingForEnd wq e0 c =>
          simp only [hs]
          simp only [invHolds, subscribeCleanup_state, subscribeCleanup_cleanups_length,
            foldl_subscribe_state, foldl_subscribe_cleanups_length]
          simp_all [invHolds, queuesOk, cleanupStarted, doCleanupStart, List.length_eq_zero]
      | endQueued iq c i =>
          simp only [hs]
          simp_all [invHolds, queuesOk, cleanupStarted]
      | waitingForCleanupToFinish i c =>
          simp only [hs]
          simp_all [invHolds, queuesOk, cleanupStarted]
      | complete c =>
          simp only [hs]
          simp_all [invHolds, queuesOk, cleanupStarted]
  | nextOp =>
      simp only [step, next]
      cases hs : w.state with
      | maybeQueued wq iq =>
          simp only [hs]
          cases iq with
          | nil => simp_all [invHolds, queuesOk, cleanupStarted, fresh]
          | cons v iq' =>
              simp_all [invHolds, queuesOk, cleanupStarted, fresh, settlePromise]
      | waitingForValue wq iq =>
          simp only [hs]
          simp_all [invHolds, queuesOk, cleanupStarted, fresh]
      | endQueued iq c i =>
          simp only [hs]
          cases iq with
          | nil =>
              simp only [invHolds, subscribeCleanup_state, subscribeCleanup_cleanups_length]
              simp_all [invHolds, queuesOk, cleanupStarted, fresh]
          | cons v iq' =>
              simp_all [invHolds, queuesOk, cleanupStarted, fresh, settlePromise]
      | waitingForEnd wq e c =>
          simp only [hs]
          simp_all [invHolds, queuesOk, cleanupStarted, fresh]
      | waitingForCleanupToFinish i c =>
          simp only [hs]
          simp only [invHolds, subscribeCleanup_state, subscribeCleanup_cleanups_length]
          simp_all [invHolds, queuesOk, cleanupStarted, fresh]
      | complete c =>
          simp only [hs]
          simp_all [invHolds, queuesOk, cleanupStarted, fresh, settlePromise]
  | sreturnOp v =>
      simp only [step, streamReturn]
      cases hs : w.state with
      | maybeQueued wq iq =>
          simp only [hs]
          simp only [invHolds, subscribeCleanup_state, subscribeCleanup_cleanups_length]
          simp_all [invHolds, queuesOk, cleanupStarted, doCleanupStart, fresh,
            List.length_eq_zero]
      | waitingForValue wq iq =>
          simp only [hs]
          simp_all [invHolds, queuesOk, cleanupStarted, fresh]
      | waitingForEnd wq e c =>
          simp only [hs]
          simp_all [invHolds, queuesOk, cleanupStarted, fresh]
      | endQueued iq c i =>
          simp only [hs]
          simp only [invHolds, subscribeCleanup_state, subscribeCleanup_cleanups_length]
          simp_all [invHolds, queuesOk, cleanupStarted, fresh]
      | waitingForCleanupToFinish i c =>
          simp only [hs]
          simp only [invHolds, subscribeCleanup_state, subscribeCleanup_cleanups_length]
          simp_all [invHolds, queuesOk, cleanupStarted, fresh]
      | complete c =>
          try simp only [hs]
          cases c with
          | ret vv => simp_all [invHolds, queuesOk, cleanupStarted, fresh, settlePromise]
          | err e => exact h
  | settleOp i outcome =>
      simp only [step, settleCleanup]
      cases hget : w.cleanups.get? i with
      | none =>
          simp only [hget]
          exact h
      | some inst =>
          cases inst with
          | running c subs =>
              simp only [hget]
              have hne : w.cleanups ≠ [] := by
                intro hnil
                rw [hnil] at hget
                simp at hget
              have hlen : 0 < w.cleanups.length := List.length_pos.mpr hne
              rw [invHolds, Bool.and_eq_true, beq_iff_eq] at h
              obtain ⟨h1, _hq⟩ := h
              have hstarted : cleanupStarted w.state = true := by
                by_contra hc
                simp only [Bool.not_eq_true] at hc
                rw [hc] at h1
                simp only [Bool.false_eq_true, if_false] at h1
                omega
              have hstarted2 := foldl_applySub_started (doCleanupMerge c outcome) subs { w with cleanups := w.cleanups.set i (CleanupInst.finished (doCleanupMerge c outcome) []) } hstarted
              rw [hstarted] at h1
              simp only [if_true] at h1
              rw [invHolds, Bool.and_eq_true, beq_iff_eq]
              refine ⟨?_, queuesOk_of_started _ hstarted2⟩
              rw [hstarted2]
              simp only [if_true, foldl_applySub_cleanups, List.length_set]
              exact h1
          | finished m pending =>
              simp only [hget]
              exact h
  | flushOp i =>
      simp only [step, flushCleanup]
      cases hget : w.cleanups.get? i with
      | none =>
          simp only [hget]
          exact h
      | some inst =>
          cases inst with
          | running c subs =>
              simp only [hget]
              exact h
          | finished m pending =>
              simp only [hget]
              have hne : w.cleanups ≠ [] := by
                intro hnil
                rw [hnil] at hget
                simp at hget
              have hlen : 0 < w.cleanups.length := List.length_pos.mpr hne
              rw [invHolds, Bool.and_eq_true, beq_iff_eq] at h
              obtain ⟨h1, _hq⟩ := h
              have hstarted : cleanupStarted w.state = true := by
                by_contra hc
                simp only [Bool.not_eq_true] at hc
                rw [hc] at h1
                simp only [Bool.false_eq_true, if_false] at h1
                omega
              have hstarted2 := foldl_applySub_started m pending { w with cleanups := w.cleanups.set i (CleanupInst.finished m []) } hstarted
              rw [hstarted] at h1
              simp only [if_true] at h1
              rw [invHolds, Bool.and_eq_true, beq_iff_eq]
              refine ⟨?_, queuesOk_of_started _ hstarted2⟩
              rw [hstarted2]
              simp only [if_true, foldl_applySub_cleanups, List.length_set]
              exact h1

theorem inv_run {τ ρ ε : Type} (ops : List (Op τ ρ ε)) (w : World τ ρ ε)
    (h : invHolds w = true) : invHolds (run ops w) = true := by
  induction ops generalizing w with
  | nil => exact h
  | cons op ops ih => exact ih _ (inv_step op w h)

end StreamTs
namespace StreamTs

/-- The controller call that stores a given completion value (`return` for a
return completion, `throw` for an error completion). -/
def completionOp {τ ρ ε : Type} : CompletionValue ρ ε → Op τ ρ ε
  | .ret r => .returnOp r
  | .err e => .throwOp e

theorem step_completionOp {τ ρ ε : Type} (c : CompletionValue ρ ε) (w : World τ ρ ε) :
    step (completionOp c) w = completeFromController c w := by
  cases c <;> rfl

theorem settlePromise_followers_nil {τ ρ ε : Type} (w : World τ ρ ε)
    (hf : w.followers = []) (id : Nat) (s : Settlement τ ρ ε) :
    settlePromise w id s = { w with settledLog := w.settledLog ++ [(id, s)] } := by
  obtain ⟨st, cu, log, fol, n⟩ := w
  simp only at hf
  subst hf
  simp [settlePromise, propagate, splitFollowers]

/-- Running `k` consecutive `next()` calls from a `waitingForValue` state with
an empty item queue enqueues `k` fresh waiting resolvers in issue order. -/
theorem run_nexts_wfv {τ ρ ε : Type} (k : Nat) :
    ∀ (wq : List Nat) (cu : List (CleanupInst ρ ε))
      (log : List (Nat × Settlement τ ρ ε)) (n : Nat),
    run (List.replicate k Op.nextOp) ⟨.waitingForValue wq [], cu, log, [], n⟩
      = ⟨.waitingForValue (wq ++ List.range' n k) [], cu, log, [], n + k⟩ := by
  induction k with
  | zero => intro wq cu log n; simp [run, List.replicate]
  | succ k ih =>
      intro wq cu log n
      rw [List.replicate_succ]
      show run (List.replicate k Op.nextOp)
        (step Op.nextOp ⟨.waitingForValue wq [], cu, log, [], n⟩)
        = _
      have hstep : step Op.nextOp
          (⟨.waitingForValue wq [], cu, log, [], n⟩ : World τ ρ ε)
          = ⟨.waitingForValue (wq ++ [n]) [], cu, log, [], n + 1⟩ := by
        simp [step, next, fresh]
      rw [hstep, ih]
      have : wq ++ [n] ++ List.range' (n + 1) k = wq ++ List.range' n (k + 1) := by
        rw [List.range'_succ, List.append_assoc]
        rfl
      rw [this]
      congr 1
      omega

/-- `k ≥ 1` consecutive `next()` calls on a fresh stream put it in
`waitingForValue` with the promise ids `0, …, k-1` queued in issue order. -/
theorem run_nexts_init {τ ρ ε : Type} (k : Nat) (hk : 0 < k) :
    run (List.replicate k Op.nextOp) (initWorld τ ρ ε)
      = ⟨.waitingForValue (List.range k) [], [], [], [], k⟩ := by
  obtain ⟨k, rfl⟩ : ∃ k', k = k' + 1 := ⟨k - 1, by omega⟩
  rw [List.replicate_succ]
  show run (List.replicate k Op.nextOp) (step Op.nextOp (initWorld τ ρ ε)) = _
  have hstep : step Op.nextOp (initWorld τ ρ ε)
      = ⟨.waitingForValue [0] [], [], [], [], 1⟩ := by
    simp [step, next, initWorld, fresh]
  rw [hstep, run_nexts_wfv]
  have : ([0] : List Nat) ++ List.range' 1 k = List.range (k + 1) := by
    rw [List.range_eq_range']
    rw [List.range'_succ]
    rfl
  rw [this]
  congr 1
  omega

/-- Yielding values while consumers wait settles the waiting promises with the
values, pairing them off in FIFO order. -/
theorem run_yields_wfv {τ ρ ε : Type} (vs : List τ) :
    ∀ (wq : List Nat) (cu : List (CleanupInst ρ ε))
      (log : List (Nat × Settlement τ ρ ε)) (n : Nat),
    vs.length ≤ wq.length → wq ≠ [] →
    run (vs.map Op.yieldOp) ⟨.waitingForValue wq [], cu, log, [], n⟩
      = ⟨(if vs.length < wq.length then .waitingForValue (wq.drop vs.length) []
          else .maybeQueued (wq.drop vs.length) []), cu,
         log ++ (List.zip wq vs).map (fun p => (p.1, Settlement.yielded p.2)), [], n⟩ := by
  induction vs with
  | nil =>
      intro wq cu log n h hne
      have : 0 < wq.length := List.length_pos.mpr hne
      simp [run, this]
  | cons v vs ih =>
      intro wq cu log n h hne
      cases wq with
      | nil => simp at h
      | cons r wq' =>
          rw [List.map_cons]
          show run (vs.map Op.yieldOp)
            (step (Op.yieldOp v) ⟨.waitingForValue (r :: wq') [], cu, log, [], n⟩) = _
          cases wq' with
          | nil =>
              have hlen : (v :: vs).length ≤ 1 := h
              simp only [List.length_cons] at hlen
              have hvs : vs = [] := List.length_eq_zero.mp (by omega)
              subst hvs
              have hstep : step (Op.yieldOp v)
                  (⟨.waitingForValue [r] [], cu, log, [], n⟩ : World τ ρ ε)
                  = ⟨.maybeQueued [] [], cu, log ++ [(r, .yielded v)], [], n⟩ := by
                simp [step, ctrlYield]
                rw [settlePromise_followers_nil]
                rfl
              rw [hstep]
              simp [run, List.zip]
          | cons r2 wq'' =>
              have hstep : step (Op.yieldOp v)
                  (⟨.waitingForValue (r :: r2 :: wq'') [], cu, log, [], n⟩ : World τ ρ ε)
                  = ⟨.waitingForValue (r2 :: wq'') [], cu,
                     log ++ [(r, .yielded v)], [], n⟩ := by
                simp [step, ctrlYield]
                rw [settlePromise_followers_nil]
                rfl
              have hle : vs.length ≤ (r2 :: wq'').length := by
                simp only [List.length_cons] at h ⊢
                omega
              rw [hstep, ih (r2 :: wq'') cu (log ++ [(r, Settlement.yielded v)]) n hle
                (by simp)]
              simp [List.zip_cons_cons]

end StreamTs
namespace StreamTs

/-- Yielding while in `waitingForEnd`, with more waiters than values: each
value settles the oldest waiter; cleanup does not start. -/
theorem run_yields_wfe {τ ρ ε : Type} (vs : List τ) :
    ∀ (wq : List Nat) (e : Nat) (c : CompletionValue ρ ε)
      (log : List (Nat × Settlement τ ρ ε)) (n : Nat),
    vs.length < wq.length →
    run (vs.map Op.yieldOp) ⟨.waitingForEnd wq e c, [], log, [], n⟩
      = ⟨.waitingForEnd (wq.drop vs.length) e c, [],
         log ++ (List.zip wq vs).map (fun p => (p.1, Settlement.yielded p.2)), [], n⟩ := by
  induction vs with
  | nil =>
      intro wq e c log n h
      simp [run]
  | cons v vs ih =>
      intro wq e c log n h
      cases wq with
      | nil => simp at h
      | cons r wq' =>
          rw [List.map_cons]
          show run (vs.map Op.yieldOp)
            (step (Op.yieldOp v) ⟨.waitingForEnd (r :: wq') e c, [], log, [], n⟩) = _
          have hne : wq' ≠ [] := by
            intro hnil
            subst hnil
            simp only [List.length_cons, List.length_nil] at h
            omega
          have hstep : step (Op.yieldOp v)
              (⟨.waitingForEnd (r :: wq') e c, [], log, [], n⟩ : World τ ρ ε)
              = ⟨.waitingForEnd wq' e c, [], log ++ [(r, Settlement.yielded v)], [], n⟩ := by
            simp only [step, ctrlYield]
            rw [settlePromise_followers_nil _ rfl]
            simp only [List.isEmpty_eq_true]
            rw [if_neg hne]
          rw [hstep]
          have hlt : vs.length < wq'.length := by
            simp only [List.length_cons] at h
            omega
          rw [ih wq' e c (log ++ [(r, Settlement.yielded v)]) n hlt]
          simp [List.zip_cons_cons]

/-- Yielding while in `waitingForEnd`, with exactly as many values as waiters:
every waiter is settled in order, then cleanup starts (for the first time) and
the end waiter is subscribed to it with a state-completing callback. -/
theorem run_yields_wfe_all {τ ρ ε : Type} (vs : List τ) :
    ∀ (wq : List Nat) (e : Nat) (c : CompletionValue ρ ε)
      (log : List (Nat × Settlement τ ρ ε)) (n : Nat),
    vs.length = wq.length → wq ≠ [] →
    run (vs.map Op.yieldOp) ⟨.waitingForEnd wq e c, [], log, [], n⟩
      = ⟨.waitingForCleanupToFinish 0 c, [.running c [⟨true, some e⟩]],
         log ++ (List.zip wq vs).map (fun p => (p.1, Settlement.yielded p.2)), [], n⟩ := by
  induction vs with
  | nil =>
      intro wq e c log n h hne
      simp only [List.length_nil] at h
      exact absurd (List.length_eq_zero.mp (by omega)) hne
  | cons v vs ih =>
      intro wq e c log n h hne
      cases wq with
      | nil => simp at h
      | cons r wq' =>
          rw [List.map_cons]
          show run (vs.map Op.yieldOp)
            (step (Op.yieldOp v) ⟨.waitingForEnd (r :: wq') e c, [], log, [], n⟩) = _
          cases wq' with
          | nil =>
              have hvs : vs = [] := by
                simp only [List.length_cons, List.length_nil] at h
                exact List.length_eq_zero.mp (by omega)
              subst hvs
              have hstep : step (Op.yieldOp v)
                  (⟨.waitingForEnd [r] e c, [], log, [], n⟩ : World τ ρ ε)
                  = ⟨.waitingForCleanupToFinish 0 c, [.running c [⟨true, some e⟩]],
                     log ++ [(r, Settlement.yielded v)], [], n⟩ := by
                simp only [step, ctrlYield]
                rw [settlePromise_followers_nil _ rfl]
                simp [doCleanupStart, subscribeCleanup]
              rw [hstep]
              simp [run, List.zip]
          | cons r2 wq'' =>
              have hne2 : (r2 :: wq'') ≠ ([] : List Nat) := by simp
              have hstep : step (Op.yieldOp v)
                  (⟨.waitingForEnd (r :: r2 :: wq'') e c, [], log, [], n⟩ : World τ ρ ε)
                  = ⟨.waitingForEnd (r2 :: wq'') e c, [],
                     log ++ [(r, Settlement.yielded v)], [], n⟩ := by
                simp only [step, ctrlYield]
                rw [settlePromise_followers_nil _ rfl]
                simp only [List.isEmpty_eq_true]
                rw [if_neg hne2]
              rw [hstep]
              have hlen : vs.length = (r2 :: wq'').length := by
                simp only [List.length_cons] at h ⊢
                omega
              rw [ih (r2 :: wq'') e c (log ++ [(r, Settlement.yielded v)]) n hlen hne2]
              simp [List.zip_cons_cons]

/-- Subscribing one resolver per waiting id collects the callbacks, in order,
on the (single) running cleanup instance. -/
theorem foldl_subscribe_collect {τ ρ ε : Type} (rs : List Nat) :
    ∀ (c : CompletionValue ρ ε) (subs : List CleanupSub) (st : StreamState τ ρ ε)
      (log : List (Nat × Settlement τ ρ ε)) (fol : List (Follower ρ)) (n : Nat),
    rs.foldl (fun acc r => subscribeCleanup 0 ⟨false, some r⟩ acc)
        ⟨st, [.running c subs], log, fol, n⟩
      = ⟨st, [.running c (subs ++ rs.map fun r => ⟨false, some r⟩)], log, fol, n⟩ := by
  induction rs with
  | nil => intro c subs st log fol n; simp
  | cons r rs ih =>
      intro c subs st log fol n
      rw [List.foldl_cons]
      have hsub : subscribeCleanup 0 ⟨false, some r⟩
          (⟨st, [.running c subs], log, fol, n⟩ : World τ ρ ε)
          = ⟨st, [.running c (subs ++ [⟨false, some r⟩])], log, fol, n⟩ := by
        simp [subscribeCleanup]
      rw [hsub, ih]
      simp

/-- Delivering the merged completion value to a list of subscribed resolvers
settles each of them, in subscription order, with the corresponding
settlement. -/
theorem foldl_applySub_deliver {τ ρ ε : Type} (merged : CompletionValue ρ ε)
    (rs : List Nat) :
    ∀ (st : StreamState τ ρ ε) (cu : List (CleanupInst ρ ε))
      (log : List (Nat × Settlement τ ρ ε)) (n : Nat),
    (rs.map fun r => (⟨false, some r⟩ : CleanupSub)).foldl (applySub merged)
        ⟨st, cu, log, [], n⟩
      = ⟨st, cu, log ++ rs.map (fun r => (r, settlementOf merged)), [], n⟩ := by
  induction rs with
  | nil => intro st cu log n; simp
  | cons r rs ih =>
      intro st cu log n
      rw [List.map_cons, List.foldl_cons]
      have happ : applySub merged (⟨st, cu, log, [], n⟩ : World τ ρ ε) ⟨false, some r⟩
          = ⟨st, cu, log ++ [(r, settlementOf merged)], [], n⟩ := by
        simp only [applySub]
        rw [settlePromise_followers_nil _ rfl]
        rfl
      rw [happ, ih]
      simp

end StreamTs
namespace StreamTs

theorem zip_range'_eq_enumFrom {α : Type} (vs : List α) :
    ∀ (n k : Nat), vs.length ≤ k →
    List.zip (List.range' n k) vs = List.enumFrom n vs := by
  induction vs with
  | nil => intro n k h; simp
  | cons v vs ih =>
      intro n k h
      cases k with
      | zero => simp at h
      | succ k =>
          rw [List.range'_succ, List.zip_cons_cons, List.enumFrom]
          rw [ih (n + 1) k (by simp only [List.length_cons] at h; omega)]

theorem doCleanupMerge_none {ρ ε : Type} (c : CompletionValue ρ ε) :
    doCleanupMerge c none = c := rfl

/-- Settling the single running cleanup instance whose subscribers are plain
per-waiter deliveries hands the merged completion value to each of them in
subscription order. -/
theorem settleCleanup_deliver_list {τ ρ ε : Type} (c : CompletionValue ρ ε)
    (o : Option (JsError ε)) (rs : List Nat) (st : StreamState τ ρ ε)
    (log : List (Nat × Settlement τ ρ ε)) (n : Nat) :
    settleCleanup 0 o ⟨st, [.running c (rs.map fun r => ⟨false, some r⟩)], log, [], n⟩
      = ⟨st, [.finished (doCleanupMerge c o) []],
         log ++ rs.map (fun r => (r, settlementOf (doCleanupMerge c o))), [], n⟩ := by
  simp only [settleCleanup, List.get?, List.set]
  rw [foldl_applySub_deliver]

/--
C1. For every sequence of `next()` calls issued while nothing is buffered,
followed by producer yields, the pending promises are resolved in issue order,
the i-th call receiving `{done:false, value}` with the i-th emitted value.
-/
theorem nexts_resolve_in_fifo_order {τ ρ ε : Type} (k : Nat) (vs : List τ)
    (h : vs.length ≤ k) :
    (run (List.replicate k Op.nextOp ++ vs.map Op.yieldOp) (initWorld τ ρ ε)).settledLog
      = vs.enum.map (fun p => (p.1, Settlement.yielded p.2)) := by
  cases k with
  | zero =>
      have hvs : vs = [] := List.length_eq_zero.mp (by omega)
      subst hvs
      rfl
  | succ k =>
      rw [run_append, run_nexts_init (k + 1) (Nat.succ_pos k)]
      rw [run_yields_wfv vs (List.range (k + 1)) [] [] (k + 1)
        (by simpa using h) (by simp [List.range_eq_nil])]
      simp only [List.nil_append]
      rw [List.range_eq_range', zip_range'_eq_enumFrom vs 0 (k + 1) (by simpa using h)]
      rfl

theorem nexts_resolve_in_fifo_order_witness :
    ([11, 23] : List Nat).length ≤ 2 ∧
    (run (List.replicate 2 Op.nextOp ++ ([11, 23] : List Nat).map Op.yieldOp)
        (initWorld Nat Nat Nat)).settledLog
      = ([11, 23] : List Nat).enum.map (fun p => (p.1, Settlement.yielded p.2)) :=
  ⟨by decide, nexts_resolve_in_fifo_order 2 [11, 23] (by decide)⟩

/--
C2. Over every interleaving of controller calls, consumer calls and cleanup
events, the producer-supplied cleanup operation is invoked at most once, and
it has been invoked exactly once precisely when the stream has entered a
draining/cleaning state (`endQueued`, `waitingForCleanupToFinish` or
`complete`) — so the first such transition triggers it and nothing ever
re-triggers it.
-/
theorem cleanup_runs_exactly_once {τ ρ ε : Type} (ops : List (Op τ ρ ε)) :
    (run ops (initWorld τ ρ ε)).cleanups.length ≤ 1
    ∧ ((run ops (initWorld τ ρ ε)).cleanups.length = 1
        ↔ cleanupStarted (run ops (initWorld τ ρ ε)).state = true) := by
  have h := inv_run ops _ (inv_init τ ρ ε)
  rw [invHolds, Bool.and_eq_true, beq_iff_eq] at h
  obtain ⟨h1, _⟩ := h
  refine ⟨by rw [h1]; split <;> omega, ?_, ?_⟩
  · intro he
    by_contra hc
    simp only [Bool.not_eq_true] at hc
    rw [hc] at h1
    simp only [Bool.false_eq_true, if_false] at h1
    omega
  · intro hs
    rw [hs] at h1
    simpa using h1

/-- The buffered values held by a state (empty for the states that have no
item queue). -/
def itemQueueOf {τ ρ ε : Type} : StreamState τ ρ ε → List τ
  | .maybeQueued _ iq => iq
  | .waitingForValue _ iq => iq
  | .endQueued iq _ _ => iq
  | _ => []

/-- The pending consumer requests held by a state (empty for the states that
have no waiting queue). -/
def waitingQueueOf {τ ρ ε : Type} : StreamState τ ρ ε → List Nat
  | .maybeQueued wq _ => wq
  | .waitingForValue wq _ => wq
  | .waitingForEnd wq _ _ => wq
  | _ => []

/--
C9. In every reachable state, buffered values and pending consumer requests
never coexist: the item queue or the waiting queue is empty.
-/
theorem queues_never_both_nonempty {τ ρ ε : Type} (ops : List (Op τ ρ ε)) :
    itemQueueOf (run ops (initWorld τ ρ ε)).state = []
    ∨ waitingQueueOf (run ops (initWorld τ ρ ε)).state = [] := by
  have h := inv_run ops _ (inv_init τ ρ ε)
  rw [invHolds, Bool.and_eq_true] at h
  obtain ⟨_, hq⟩ := h
  cases hst : (run ops (initWorld τ ρ ε)).state with
  | maybeQueued wq iq =>
      right
      rw [hst] at hq
      simp only [queuesOk, List.isEmpty_eq_true] at hq
      simpa [waitingQueueOf] using hq
  | waitingForValue wq iq =>
      left
      rw [hst] at hq
      simp only [queuesOk, List.isEmpty_eq_true] at hq
      simpa [itemQueueOf] using hq
  | endQueued iq c i => exact Or.inr rfl
  | waitingForEnd wq e c => exact Or.inl rfl
  | waitingForCleanupToFinish i c => exact Or.inl rfl
  | complete c => exact Or.inl rfl

end StreamTs
namespace StreamTs

/--
C5 counterexample. Two `next()` calls are waiting when the producer calls
`return(23)`; after cleanup succeeds, the SECOND waiter also receives the real
completion value `{done:true, value:23}` and never the synthetic
`{done:true, value:undefined}` the claim promises it.
-/
theorem second_waiter_gets_real_completion :
    ((run [Op.nextOp, Op.nextOp, Op.returnOp (some 23), Op.settleOp 0 none]
        (initWorld Nat (Option Nat) Nat)).settledLog
      = [(0, Settlement.done (some 23)), (1, Settlement.done (some 23))])
    ∧ (1, Settlement.done (none : Option Nat)) ∉
        (run [Op.nextOp, Op.nextOp, Op.returnOp (some 23), Op.settleOp 0 none]
          (initWorld Nat (Option Nat) Nat)).settledLog := by
  have hrun : (run [Op.nextOp, Op.nextOp, Op.returnOp (some 23), Op.settleOp 0 none]
      (initWorld Nat (Option Nat) Nat)).settledLog
      = [(0, Settlement.done (some 23)), (1, Settlement.done (some 23))] := by
    simp [run, step, next, ctrlYield, ctrlReturn, ctrlThrow, completeFromController,
      streamReturn, settleCleanup, flushCleanup, subscribeCleanup, doCleanupStart,
      doCleanupMerge, settlementOf, applySub, settlePromise, propagate, splitFollowers,
      followSettle, fresh, initWorld, List.get?, List.set]
  refine ⟨hrun, ?_⟩
  rw [hrun]
  simp

/--
C5 amended. When the producer completes (return or throw) while `k` consumers
are waiting, nothing settles until cleanup finishes, and once it does EVERY
already-waiting request receives the real completion value — resolved
`{done:true, value}` for a return, rejected with the reason for an error — in
issue order; no waiter receives a synthetic `{done:true, value:undefined}`.
-/
theorem complete_while_waiting_delivers_real_to_all {τ ρ ε : Type} (k : Nat)
    (c : CompletionValue ρ ε) :
    ((run (List.replicate k Op.nextOp ++ [completionOp c]) (initWorld τ ρ ε)).settledLog
        = [])
    ∧ (settleCleanup 0 none
          (run (List.replicate k Op.nextOp ++ [completionOp c]) (initWorld τ ρ ε))).settledLog
        = (List.range k).map (fun i => (i, settlementOf c)) := by
  cases k with
  | zero =>
      constructor
      · cases c <;>
          simp [run, step, completionOp, ctrlReturn, ctrlThrow, completeFromController,
            initWorld, doCleanupStart]
      · cases c <;>
          simp [run, step, completionOp, ctrlReturn, ctrlThrow, completeFromController,
            initWorld, doCleanupStart, settleCleanup, List.get?, List.set, doCleanupMerge]
  | succ k =>
      have hrun : run (List.replicate (k + 1) Op.nextOp ++ [completionOp c])
          (initWorld τ ρ ε)
          = ⟨.waitingForCleanupToFinish 0 c,
             [.running c ((List.range (k + 1)).map fun r => ⟨false, some r⟩)],
             [], [], k + 1⟩ := by
        rw [run_append, run_nexts_init (k + 1) (Nat.succ_pos k)]
        show run [] (step (completionOp c)
          ⟨.waitingForValue (List.range (k + 1)) [], [], [], [], k + 1⟩) = _
        rw [run, step_completionOp]
        simp only [completeFromController, doCleanupStart, List.length_nil,
          List.nil_append]
        rw [foldl_subscribe_collect]
        rfl
      rw [hrun]
      refine ⟨rfl, ?_⟩
      rw [settleCleanup_deliver_list, doCleanupMerge_none]
      rfl

/--
C8 counterexample. The producer throws error `1` while one `next()` waits; a
bystander `next()` (promise id 1) arrives while cleanup is in flight; cleanup
then fails with error `2`.  The bystander is REJECTED with the merged
`AggregateError [1, 2]` — cleanup failure is surfaced to it — and does not
receive the synthetic `{done:true, value:undefined}` the claim promises.
-/
theorem bystander_next_sees_cleanup_failure :
    ((run [Op.nextOp, Op.throwOp (.simple 1), Op.nextOp,
          Op.settleOp 0 (some (.simple 2))]
        (initWorld Nat (Option Nat) Nat)).settledLog
      = [(0, Settlement.rejected (.aggregate [.simple 1, .simple 2])),
         (1, Settlement.rejected (.aggregate [.simple 1, .simple 2]))])
    ∧ (1, Settlement.done (none : Option Nat)) ∉
        (run [Op.nextOp, Op.throwOp (.simple 1), Op.nextOp,
            Op.settleOp 0 (some (.simple 2))]
          (initWorld Nat (Option Nat) Nat)).settledLog := by
  have hrun : (run [Op.nextOp, Op.throwOp (.simple 1), Op.nextOp,
      Op.settleOp 0 (some (.simple 2))]
      (initWorld Nat (Option Nat) Nat)).settledLog
      = [(0, Settlement.rejected (.aggregate [.simple 1, .simple 2])),
         (1, Settlement.rejected (.aggregate [.simple 1, .simple 2]))] := by
    simp [run, step, next, ctrlYield, ctrlReturn, ctrlThrow, completeFromController,
      streamReturn, settleCleanup, flushCleanup, subscribeCleanup, doCleanupStart,
      doCleanupMerge, settlementOf, applySub, settlePromise, propagate, splitFollowers,
      followSettle, fresh, initWorld, List.get?, List.set]
  refine ⟨hrun, ?_⟩
  rw [hrun]
  simp

/--
C8 amended. A `next()` issued while cleanup is in flight settles only once
cleanup settles, and receives the MERGED completion value: `{done:true, value}`
if the merged completion is a return, a rejection with the merged reason if it
is an error — so a cleanup failure IS surfaced to such a `next()`, exactly as
to the request that owned the completion.
-/
theorem next_during_cleanup_gets_merged_completion {τ ρ ε : Type}
    (c : CompletionValue ρ ε) (o : Option (JsError ε)) :
    ((run [Op.nextOp, completionOp c, Op.nextOp] (initWorld τ ρ ε)).settledLog = [])
    ∧ (run [Op.nextOp, completionOp c, Op.nextOp, Op.settleOp 0 o]
          (initWorld τ ρ ε)).settledLog
        = [(0, settlementOf (doCleanupMerge c o)),
           (1, settlementOf (doCleanupMerge c o))] := by
  constructor
  · cases c <;>
      simp [run, step, next, ctrlYield, ctrlReturn, ctrlThrow, completeFromController,
        completionOp, streamReturn, settleCleanup, flushCleanup, subscribeCleanup,
        doCleanupStart, doCleanupMerge, settlementOf, applySub, settlePromise, propagate,
        splitFollowers, followSettle, fresh, initWorld, List.get?, List.set]
  · cases c <;> cases o <;>
      simp [run, step, next, ctrlYield, ctrlReturn, ctrlThrow, completeFromController,
        completionOp, streamReturn, settleCleanup, flushCleanup, subscribeCleanup,
        doCleanupStart, doCleanupMerge, settlementOf, applySub, settlePromise, propagate,
        splitFollowers, followSettle, fresh, initWorld, List.get?, List.set]

/--
C6. The failure-merging rule of `_doCleanup`: if cleanup fails with `b` while
an error `a` was pending, the delivered completion is
`AggregateError [a, b]` — exposing both errors — and the owning request is
rejected with it; if cleanup fails with `b` while a return value was pending,
the delivered completion becomes the error `b`, replacing the return value.
-/
theorem cleanup_failure_merges_both_errors {τ ρ ε : Type} (a b : JsError ε) (v : ρ) :
    (doCleanupMerge (.err a : CompletionValue ρ ε) (some b)
        = .err (.aggregate [a, b]))
    ∧ (doCleanupMerge (.ret v : CompletionValue ρ ε) (some b) = .err b)
    ∧ ((run [Op.nextOp, Op.throwOp a, Op.settleOp 0 (some b)]
          (initWorld τ ρ ε)).settledLog
        = [(0, Settlement.rejected (.aggregate [a, b]))])
    ∧ ((run [Op.nextOp, Op.returnOp v, Op.settleOp 0 (some b)]
          (initWorld τ ρ ε)).settledLog
        = [(0, Settlement.rejected b)]) := by
  refine ⟨rfl, rfl, ?_, ?_⟩ <;>
    simp [run, step, next, ctrlYield, ctrlReturn, ctrlThrow, completeFromController,
      streamReturn, settleCleanup, flushCleanup, subscribeCleanup, doCleanupStart,
      doCleanupMerge, settlementOf, applySub, settlePromise, propagate, splitFollowers,
      followSettle, fresh, initWorld, List.get?, List.set]

/--
C3. When the producer's `yield(111); return(37)` happen AFTER construction,
the consumer sees `{done:false,111}`, then `{done:true,37}`, then
`{done:true,37}` again (idempotent replay) — but when the very same calls
happen synchronously inside the initializer, the constructor replaces the
`endQueued` state (which still holds the buffered `111`) with
`waitingForCleanupToFinish`, discarding the item queue, and the first `next()`
resolves `{done:true, value:37}` instead — contradicting the repository's own
test (`tests/next-method.test.ts`, "next method receives done values…").
-/
theorem sync_completion_discards_buffered_values :
    ((run [Op.yieldOp 111, Op.returnOp 37, Op.nextOp, Op.nextOp, Op.settleOp 0 none,
          Op.nextOp] (initWorld Nat Nat Nat)).settledLog
      = [(0, Settlement.yielded 111), (1, Settlement.done 37), (2, Settlement.done 37)])
    ∧ ((settleCleanup 0 none
          (next (constructStream ([Op.yieldOp 111, Op.returnOp 37] : List (Op Nat Nat Nat))))).settledLog
      = [(0, Settlement.done 37)]) := by
  constructor <;>
    simp [run, step, next, ctrlYield, ctrlReturn, ctrlThrow, completeFromController,
      constructStream, streamReturn, settleCleanup, flushCleanup, subscribeCleanup,
      doCleanupStart, doCleanupMerge, settlementOf, applySub, settlePromise, propagate,
      splitFollowers, followSettle, fresh, initWorld, List.get?, List.set]

/--
C10. On a stream in the terminal `complete` state holding an Error completion,
`return()` throws the stored reason synchronously (the call itself raises),
while `next()` returns a promise rejected with that same reason.
-/
theorem complete_error_return_throws_next_rejects {τ ρ ε : Type} (e : JsError ε)
    (r : ρ) (cu : List (CleanupInst ρ ε)) (log : List (Nat × Settlement τ ρ ε))
    (n : Nat) :
    (streamReturn r (⟨.complete (.err e), cu, log, [], n⟩ : World τ ρ ε)
        = .error e)
    ∧ (next (⟨.complete (.err e), cu, log, [], n⟩ : World τ ρ ε)
        = ⟨.complete (.err e), cu, log ++ [(n, Settlement.rejected e)], [], n + 1⟩) := by
  constructor
  · rfl
  · simp only [next, fresh, settlementOf]
    rw [settlePromise_followers_nil _ rfl]

end StreamTs
namespace StreamTs

theorem run_nexts_then_sreturn {τ ρ ε : Type} (k : Nat) (r : ρ) (hk : 0 < k) :
    run (List.replicate k Op.nextOp ++ [Op.sreturnOp r]) (initWorld τ ρ ε)
      = ⟨.waitingForEnd (List.range k) k (.ret r), [], [], [], k + 1⟩ := by
  rw [run_append, run_nexts_init k hk]
  show run [] (step (Op.sreturnOp r)
    ⟨.waitingForValue (List.range k) [], [], [], [], k⟩) = _
  simp [run, step, streamReturn, fresh]

/--
C4. If the consumer calls `return(r)` while `k ≥ 1` `next()` requests are
outstanding (nothing buffered), then: cleanup has not started while any of
those requests remains unsatisfied; once the producer has yielded a value for
every outstanding request, those requests have been settled with the yielded
values in issue order (and the `return()` promise, id `k`, is still
unsettled), and cleanup has started exactly once; only when cleanup finishes
does the `return()` promise settle, with `{done:true, value:r}`.
-/
theorem consumer_return_waits_for_outstanding {τ ρ ε : Type} (k : Nat) (r : ρ)
    (vs ys : List τ) (h1 : 0 < k) (h2 : vs.length < k) (h3 : ys.length = k) :
    ((run (vs.map Op.yieldOp)
        (run (List.replicate k Op.nextOp ++ [Op.sreturnOp r])
          (initWorld τ ρ ε))).cleanups.length = 0)
    ∧ ((run (ys.map Op.yieldOp)
        (run (List.replicate k Op.nextOp ++ [Op.sreturnOp r])
          (initWorld τ ρ ε))).cleanups.length = 1)
    ∧ ((run (ys.map Op.yieldOp)
        (run (List.replicate k Op.nextOp ++ [Op.sreturnOp r])
          (initWorld τ ρ ε))).settledLog
        = (List.zip (List.range k) ys).map (fun p => (p.1, Settlement.yielded p.2)))
    ∧ (∀ s, (k, s) ∉ (run (ys.map Op.yieldOp)
        (run (List.replicate k Op.nextOp ++ [Op.sreturnOp r])
          (initWorld τ ρ ε))).settledLog)
    ∧ ((settleCleanup 0 none (run (ys.map Op.yieldOp)
          (run (List.replicate k Op.nextOp ++ [Op.sreturnOp r])
            (initWorld τ ρ ε)))).settledLog
        = (run (ys.map Op.yieldOp)
            (run (List.replicate k Op.nextOp ++ [Op.sreturnOp r])
              (initWorld τ ρ ε))).settledLog ++ [(k, Settlement.done r)]) := by
  rw [run_nexts_then_sreturn k r h1]
  have hrange : (List.range k).length = k := List.length_range k
  have hne : List.range k ≠ [] := by
    simp [List.range_eq_nil]
    omega
  have hA := run_yields_wfe (ε := ε) vs (List.range k) k (.ret r) [] (k + 1)
    (by rw [hrange]; exact h2)
  have hB := run_yields_wfe_all (ε := ε) ys (List.range k) k (.ret r) [] (k + 1)
    (by rw [hrange]; exact h3) hne
  rw [hA, hB]
  refine ⟨rfl, rfl, by simp, ?_, ?_⟩
  · intro s hmem
    simp only [List.nil_append, List.mem_map] at hmem
    obtain ⟨p, hp, heq⟩ := hmem
    have hfst : p.1 = k := congrArg Prod.fst heq
    have hin := (List.of_mem_zip hp).1
    rw [hfst] at hin
    exact absurd (List.mem_range.mp hin) (lt_irrefl k)
  · simp only [List.nil_append, settleCleanup, List.get?, List.set, doCleanupMerge,
      List.foldl_cons, List.foldl_nil, applySub, settlementOf]
    simp only [if_true]
    rw [settlePromise_followers_nil _ rfl]

theorem consumer_return_waits_for_outstanding_witness :
    (0 < 2 ∧ ([5] : List Nat).length < 2 ∧ ([5, 6] : List Nat).length = 2)
    ∧ (((run (([5] : List Nat).map Op.yieldOp)
        (run (List.replicate 2 Op.nextOp ++ [Op.sreturnOp (7 : Nat)])
          (initWorld Nat Nat Nat))).cleanups.length = 0)
    ∧ ((run (([5, 6] : List Nat).map Op.yieldOp)
        (run (List.replicate 2 Op.nextOp ++ [Op.sreturnOp (7 : Nat)])
          (initWorld Nat Nat Nat))).cleanups.length = 1)
    ∧ ((run (([5, 6] : List Nat).map Op.yieldOp)
        (run (List.replicate 2 Op.nextOp ++ [Op.sreturnOp (7 : Nat)])
          (initWorld Nat Nat Nat))).settledLog
        = (List.zip (List.range 2) ([5, 6] : List Nat)).map
            (fun p => (p.1, Settlement.yielded p.2)))
    ∧ (∀ s, (2, s) ∉ (run (([5, 6] : List Nat).map Op.yieldOp)
        (run (List.replicate 2 Op.nextOp ++ [Op.sreturnOp (7 : Nat)])
          (initWorld Nat Nat Nat))).settledLog)
    ∧ ((settleCleanup 0 none (run (([5, 6] : List Nat).map Op.yieldOp)
          (run (List.replicate 2 Op.nextOp ++ [Op.sreturnOp (7 : Nat)])
            (initWorld Nat Nat Nat)))).settledLog
        = (run (([5, 6] : List Nat).map Op.yieldOp)
            (run (List.replicate 2 Op.nextOp ++ [Op.sreturnOp (7 : Nat)])
              (initWorld Nat Nat Nat))).settledLog ++ [(2, Settlement.done 7)])) :=
  ⟨⟨by decide, by decide, by decide⟩,
   consumer_return_waits_for_outstanding 2 7 [5] [5, 6]
     (by decide) (by decide) (by decide)⟩

end StreamTs
namespace StreamMjs

/-- Error values rejected to consumers of the `Stream.mjs` variant: either a
`CancelError` raised by the cancellation integration, or any other value (a
producer `throw` reason or a cleanup failure). -/
inductive MjsErr (ε : Type) where
  | cancelError
  | raw (e : ε)

/-- The `completionValue` of `Stream.mjs`: `{ type: 'return'|'throw', value }`.
`return` with no argument stores `undefined`, modelled as `none`. -/
inductive MjsCompletion (ρ ε : Type) where
  | ret (value : Option ρ)
  | thr (error : ε)

/-- The settlement of one consumer-visible promise in the `Stream.mjs` model. -/
inductive MjsSettlement (τ ρ ε : Type) where
  | value (v : τ)
  | done (value : Option ρ)
  | rejected (reason : MjsErr ε)

/-- One action a `cleanedUp.then`/`.finally` callback performs: set the state
to `complete`, settle a promise with `{done:true, value}`, reject a promise
with a fixed (captured) error, or reject a promise with the cleanup error. -/
inductive MjsAct (ρ ε : Type) where
  | setComplete
  | settleDone (id : Nat) (value : Option ρ)
  | settleRejectRaw (id : Nat) (e : ε)
  | settleRejectCleanupErr (id : Nat)

/-- One callback pair registered on a `cleanedUp` promise: the actions run on
cleanup success and the actions run on cleanup failure (empty when the
rejection is left unhandled). -/
structure MjsSub (ρ ε : Type) where
  onOk : List (MjsAct ρ ε)
  onErr : List (MjsAct ρ ε)

/-- One `_doCleanup` invocation of the `Stream.mjs` variant.  Its deferred
resolves with `undefined` on success and rejects with the cleanup error on
failure; the eventual outcome is memoized. -/
inductive MjsCleanupInst (ρ ε : Type) where
  | running (subs : List (MjsSub ρ ε))
  | finishedOk (pending : List (MjsSub ρ ε))
  | finishedErr (e : ε) (pending : List (MjsSub ρ ε))

/-- How a promise derived from `endWaiter` settles: `next()` in `endWaiting`
maps a resolution to `{done:true, value:undefined}` and passes rejections
through; `return()` in `endWaiting` settles `{done:true, value:r}` either
way. -/
inductive MjsFollowKind (ρ : Type) where
  | doneUndef
  | fixedDone (value : Option ρ)

structure MjsFollower (ρ : Type) where
  target : Nat
  id : Nat
  kind : MjsFollowKind ρ

/-- The states of `Stream.mjs`, with the fields each state object carries. -/
inductive MjsState (τ ρ ε : Type) where
  | empty (itemQueue : List τ) (waitingQueue : List Nat)
  | queued (itemQueue : List τ) (waitingQueue : List Nat)
  | waiting (itemQueue : List τ) (waitingQueue : List Nat)
  | endWaiting (endWaiter : Nat) (waitingQueue : List Nat)
  | endNext (completionValue : MjsCompletion ρ ε) (cleanedUp : Nat)
  | endQueued (itemQueue : List τ) (completionValue : MjsCompletion ρ ε) (cleanedUp : Nat)
  | cleanupPending (cleanedUp : Nat)
  | complete

/-- The observable state of one `Stream.mjs` instance: the `_cancelled` flag,
the `_state` object, the cleanup instances, the settlement log, the promise
chains and the fresh-id counter, plus the `queue` option (`maxSize`,
`none` = `Infinity`). -/
structure MjsWorld (τ ρ ε : Type) where
  cancelled : Bool
  state : MjsState τ ρ ε
  cleanups : List (MjsCleanupInst ρ ε)
  settledLog : List (Nat × MjsSettlement τ ρ ε)
  followers : List (MjsFollower ρ)
  nextId : Nat
  maxSize : Option Nat

def mjsSplitFollowers {ρ : Type} :
    List (MjsFollower ρ) → Nat → List (MjsFollower ρ) × List (MjsFollower ρ)
  | [], _ => ([], [])
  | f :: fs, id =>
      let rest := mjsSplitFollowers fs id
      if f.target = id then (f :: rest.1, rest.2) else (rest.1, f :: rest.2)

theorem mjsSplitFollowers_length {ρ : Type} (fs : List (MjsFollower ρ)) (id : Nat) :
    (mjsSplitFollowers fs id).1.length + (mjsSplitFollowers fs id).2.length
      = fs.length := by
  induction fs with
  | nil => rfl
  | cons f fs ih =>
      simp only [mjsSplitFollowers]
      by_cases h : f.target = id
      · simp only [if_pos h, List.length_cons]
        omega
      · simp only [if_neg h, List.length_cons]
        omega

def mjsFollowSettle {τ ρ ε : Type} (kind : MjsFollowKind ρ)
    (s : MjsSettlement τ ρ ε) : MjsSettlement τ ρ ε :=
  match kind with
  | .doneUndef =>
      match s with
      | .rejected e => .rejected e
      | _ => .done none
  | .fixedDone r => .done r

def mjsPropagate {τ ρ ε : Type} :
    List (MjsFollower ρ) → List (Nat × MjsSettlement τ ρ ε) →
    List (Nat × MjsSettlement τ ρ ε) × List (MjsFollower ρ)
  | fs, [] => ([], fs)
  | fs, (id, s) :: rest =>
      let split := mjsSplitFollowers fs id
      let out := mjsPropagate split.2
        (rest ++ split.1.map fun f => (f.id, mjsFollowSettle f.kind s))
      ((id, s) :: out.1, out.2)
  termination_by fs q => fs.length + q.length
  decreasing_by
    have h := mjsSplitFollowers_length fs id
    simp only [List.length_append, List.length_map, List.length_cons]
    omega

def mjsSettle {τ ρ ε : Type} (w : MjsWorld τ ρ ε) (id : Nat)
    (s : MjsSettlement τ ρ ε) : MjsWorld τ ρ ε :=
  let out := mjsPropagate w.followers [(id, s)]
  { w with settledLog := w.settledLog ++ out.1, followers := out.2 }

def mjsFresh {τ ρ ε : Type} (w : MjsWorld τ ρ ε) : Nat × MjsWorld τ ρ ε :=
  (w.nextId, { w with nextId := w.nextId + 1 })

/-- `this._doCleanup(cleanupOperation)`: runs the cleanup operation once and
returns the index of the new `cleanedUp` promise. -/
def mjsDoCleanup {τ ρ ε : Type} (w : MjsWorld τ ρ ε) : Nat × MjsWorld τ ρ ε :=
  (w.cleanups.length, { w with cleanups := w.cleanups ++ [.running []] })

def mjsSubscribe {τ ρ ε : Type} (i : Nat) (sub : MjsSub ρ ε) (w : MjsWorld τ ρ ε) :
    MjsWorld τ ρ ε :=
  match w.cleanups.get? i with
  | some (.running subs) =>
      { w with cleanups := w.cleanups.set i (.running (subs ++ [sub])) }
  | some (.finishedOk pending) =>
      { w with cleanups := w.cleanups.set i (.finishedOk (pending ++ [sub])) }
  | some (.finishedErr e pending) =>
      { w with cleanups := w.cleanups.set i (.finishedErr e (pending ++ [sub])) }
  | none => w

def mjsApplyAct {τ ρ ε : Type} (cleanupErr : Option ε) (w : MjsWorld τ ρ ε) :
    MjsAct ρ ε → MjsWorld τ ρ ε
  | .setComplete => { w with state := .complete }
  | .settleDone id v => mjsSettle w id (.done v)
  | .settleRejectRaw id e => mjsSettle w id (.rejected (.raw e))
  | .settleRejectCleanupErr id =>
      match cleanupErr with
      | some e => mjsSettle w id (.rejected (.raw e))
      | none => w

def mjsApplySub {τ ρ ε : Type} (outcome : Option ε) (w : MjsWorld τ ρ ε)
    (sub : MjsSub ρ ε) : MjsWorld τ ρ ε :=
  match outcome with
  | none => sub.onOk.foldl (mjsApplyAct none) w
  | some _ => sub.onErr.foldl (mjsApplyAct outcome) w

/-- The cleanup operation of instance `i` finishes (`none` = resolved,
`some e` = rejected with `e`); all registered callbacks run in order. -/
def mjsSettleCleanup {τ ρ ε : Type} (i : Nat) (outcome : Option ε)
    (w : MjsWorld τ ρ ε) : MjsWorld τ ρ ε :=
  match w.cleanups.get? i with
  | some (.running subs) =>
      let inst : MjsCleanupInst ρ ε :=
        match outcome with
        | none => .finishedOk []
        | some e => .finishedErr e []
      let w1 := { w with cleanups := w.cleanups.set i inst }
      subs.foldl (mjsApplySub outcome) w1
  | _ => w

def mjsFlushCleanup {τ ρ ε : Type} (i : Nat) (w : MjsWorld τ ρ ε) : MjsWorld τ ρ ε :=
  match w.cleanups.get? i with
  | some (.finishedOk pending) =>
      let w1 := { w with cleanups := w.cleanups.set i (.finishedOk []) }
      pending.foldl (mjsApplySub none) w1
  | some (.finishedErr e pending) =>
      let w1 := { w with cleanups := w.cleanups.set i (.finishedErr e []) }
      pending.foldl (mjsApplySub (some e)) w1
  | _ => w

end StreamMjs
namespace StreamMjs

/-- The cancellation-signal subscription handler (`Stream.mjs` constructor):
sets `_cancelled`, then forces the state machine into `cleanupPending` /
`complete`, rejecting every outstanding waiter (and the end waiter) with a
`CancelError`, starting cleanup if it has not started, and following the
already-running cleanup otherwise. -/
def mjsCancelFire {τ ρ ε : Type} (w0 : MjsWorld τ ρ ε) : MjsWorld τ ρ ε :=
  let w := { w0 with cancelled := true }
  match w.state with
  | .empty _iq _wq | .queued _iq _wq =>
      let (i, w1) := mjsDoCleanup w
      let w2 := { w1 with state := .cleanupPending i }
      mjsSubscribe i ⟨[.setComplete], [.setComplete]⟩ w2
  | .endQueued _iq _c i =>
      -- the plain `.then(_ => undefined)` registers nothing observable
      let w1 := { w with state := .cleanupPending i }
      mjsSubscribe i ⟨[], []⟩ w1
  | .waiting _iq wq =>
      let (i, w1) := mjsDoCleanup w
      let w2 := wq.foldl (fun acc r => mjsSettle acc r (.rejected .cancelError)) w1
      let w3 := { w2 with state := .cleanupPending i }
      mjsSubscribe i ⟨[.setComplete], [.setComplete]⟩ w3
  | .endWaiting e wq =>
      let (i, w1) := mjsDoCleanup w
      let w2 := wq.foldl (fun acc r => mjsSettle acc r (.rejected .cancelError)) w1
      let w3 := mjsSettle w2 e (.rejected .cancelError)
      let w4 := { w3 with state := .cleanupPending i }
      mjsSubscribe i ⟨[.setComplete], [.setComplete]⟩ w4
  | .cleanupPending i => mjsSubscribe i ⟨[], []⟩ w
  | .endNext _c i => mjsSubscribe i ⟨[], []⟩ w
  | .complete => w

/-- The producer's `_yield`.  In `empty`/`queued` the value is appended and
the oldest value is evicted when the queue exceeds `maxSize` (`none` means
`Infinity`); in `waiting` the oldest consumer resumes; in `endWaiting` the
oldest consumer resumes and, when the waiting queue empties, cleanup starts
and the end waiter follows it.  All other states ignore the call. -/
def mjsYield {τ ρ ε : Type} (value : τ) (w : MjsWorld τ ρ ε) : MjsWorld τ ρ ε :=
  match w.state with
  | .empty iq wq | .queued iq wq =>
      let iq1 := iq ++ [value]
      let iq2 :=
        match w.maxSize with
        | some m => if iq1.length > m then iq1.drop 1 else iq1
        | none => iq1
      if iq2.length > 0 then { w with state := .queued iq2 wq }
      else { w with state := .empty iq2 wq }
  | .waiting iq wq =>
      match wq with
      | [] => w  -- shifting an empty queue; unreachable
      | consumer :: rest =>
          let w1 :=
            if rest.length = 0 then { w with state := .empty iq rest }
            else { w with state := .waiting iq rest }
          mjsSettle w1 consumer (.value value)
  | .endWaiting e wq =>
      match wq with
      | [] => w  -- shifting an empty queue; unreachable
      | consumer :: rest =>
          let w1 := mjsSettle w consumer (.value value)
          if rest.length = 0 then
            let (i, w2) := mjsDoCleanup w1
            let w3 := { w2 with state := .cleanupPending i }
            mjsSubscribe i ⟨[.setComplete, .settleDone e none],
              [.setComplete, .settleRejectCleanupErr e]⟩ w3
          else { w1 with state := .endWaiting e rest }
  | _ => w

/-- The action delivering a stored completion value to promise `id`
(`consumer.reject(value)` for a throw, `consumer.resolve({done:true, value})`
for a return). -/
def mjsDeliverCompletion {ρ ε : Type} (id : Nat) : MjsCompletion ρ ε → MjsAct ρ ε
  | .ret v => .settleDone id v
  | .thr e => .settleRejectRaw id e

/-- `completionMethod(type)(value)` — the shared body of the producer's
`throw` and `return`. -/
def completionMethod {τ ρ ε : Type} (c : MjsCompletion ρ ε) (w : MjsWorld τ ρ ε) :
    MjsWorld τ ρ ε :=
  match w.state with
  | .empty _iq _wq =>
      let (i, w1) := mjsDoCleanup w
      { w1 with state := .endNext c i }
  | .queued iq _wq =>
      let (i, w1) := mjsDoCleanup w
      { w1 with state := .endQueued iq c i }
  | .waiting _iq wq =>
      match wq with
      | [] =>
          -- shifting an empty waiting queue; unreachable
          let (i, w1) := mjsDoCleanup w
          { w1 with state := .cleanupPending i }
      | consumer :: rest =>
          let (i, w1) := mjsDoCleanup w
          let w2 := mjsSubscribe i ⟨[.setComplete, mjsDeliverCompletion consumer c], []⟩ w1
          let w3 := rest.foldl (fun acc extra =>
            mjsSubscribe i ⟨[.settleDone extra none], [.settleDone extra none]⟩ acc) w2
          { w3 with state := .cleanupPending i }
  | .endWaiting e wq =>
      match wq with
      | [] =>
          let (i, w1) := mjsDoCleanup w
          let w2 := mjsSubscribe i ⟨[.settleDone e none], [.settleDone e none]⟩ w1
          { w2 with state := .cleanupPending i }
      | consumer :: rest =>
          let (i, w1) := mjsDoCleanup w
          let w2 := mjsSubscribe i ⟨[.setComplete, mjsDeliverCompletion consumer c], []⟩ w1
          let w3 := rest.foldl (fun acc extra =>
            mjsSubscribe i ⟨[.settleDone extra none], [.settleDone extra none]⟩ acc) w2
          let w4 := mjsSubscribe i ⟨[.settleDone e none], [.settleDone e none]⟩ w3
          { w4 with state := .cleanupPending i }
  | _ => w

/-- `Stream.prototype.next` of `Stream.mjs`.  A cancelled stream immediately
rejects with a `CancelError`, whatever the state and whatever is buffered. -/
def mjsNext {τ ρ ε : Type} (w : MjsWorld τ ρ ε) : MjsWorld τ ρ ε :=
  if w.cancelled then
    let (n, w1) := mjsFresh w
    mjsSettle w1 n (.rejected .cancelError)
  else
    match w.state with
    | .waiting iq wq =>
        let (n, w1) := mjsFresh w
        { w1 with state := .waiting iq (wq ++ [n]) }
    | .empty iq wq =>
        let (n, w1) := mjsFresh w
        { w1 with state := .waiting iq (wq ++ [n]) }
    | .queued iq wq =>
        match iq with
        | [] => w  -- shifting an empty item queue; unreachable
        | v :: iq' =>
            let (n, w1) := mjsFresh w
            let w2 :=
              if iq'.length = 0 then { w1 with state := .empty iq' wq }
              else { w1 with state := .queued iq' wq }
            mjsSettle w2 n (.value v)
    | .endQueued iq c i =>
        match iq with
        | [] => w  -- shifting an empty item queue; unreachable
        | v :: iq' =>
            let (n, w1) := mjsFresh w
            let w2 :=
              if iq'.length = 0 then { w1 with state := .endNext c i }
              else { w1 with state := .endQueued iq' c i }
            mjsSettle w2 n (.value v)
    | .endNext c i =>
        let (n, w1) := mjsFresh w
        let w2 := { w1 with state := .cleanupPending i }
        mjsSubscribe i ⟨[.setComplete, mjsDeliverCompletion n c],
          [.setComplete, .settleRejectCleanupErr n]⟩ w2
    | .endWaiting e _wq =>
        let (n, w1) := mjsFresh w
        { w1 with followers := w1.followers ++ [⟨e, n, .doneUndef⟩] }
    | .cleanupPending i =>
        let (n, w1) := mjsFresh w
        mjsSubscribe i ⟨[.settleDone n none], [.settleDone n none]⟩ w1
    | .complete =>
        let (n, w1) := mjsFresh w
        mjsSettle w1 n (.done none)

/-- `Stream.prototype.return` of `Stream.mjs`.  A cancelled stream immediately
rejects with a `CancelError`, whatever the state and whatever is buffered. -/
def mjsReturn {τ ρ ε : Type} (returnValue : Option ρ) (w : MjsWorld τ ρ ε) :
    MjsWorld τ ρ ε :=
  if w.cancelled then
    let (n, w1) := mjsFresh w
    mjsSettle w1 n (.rejected .cancelError)
  else
    match w.state with
    | .empty _iq _wq | .queued _iq _wq =>
        let (i, w1) := mjsDoCleanup w
        let w2 := { w1 with state := .cleanupPending i }
        let (n, w3) := mjsFresh w2
        mjsSubscribe i ⟨[.setComplete, .settleDone n returnValue],
          [.setComplete, .settleRejectCleanupErr n]⟩ w3
    | .waiting _iq wq =>
        let (n, w1) := mjsFresh w
        { w1 with state := .endWaiting n wq }
    | .endWaiting e _wq =>
        let (n, w1) := mjsFresh w
        { w1 with followers := w1.followers ++ [⟨e, n, .fixedDone returnValue⟩] }
    | .endNext c i =>
        let w1 := { w with state := .cleanupPending i }
        let (n, w2) := mjsFresh w1
        mjsSubscribe i ⟨[.setComplete, mjsDeliverCompletion n c],
          [.setComplete, .settleRejectCleanupErr n]⟩ w2
    | .endQueued _iq c i =>
        let w1 := { w with state := .cleanupPending i }
        let (n, w2) := mjsFresh w1
        mjsSubscribe i ⟨[.setComplete, mjsDeliverCompletion n c],
          [.setComplete, .settleRejectCleanupErr n]⟩ w2
    | .cleanupPending i =>
        let (n, w1) := mjsFresh w
        mjsSubscribe i ⟨[.settleDone n returnValue], [.settleDone n returnValue]⟩ w1
    | .complete =>
        let (n, w1) := mjsFresh w
        mjsSettle w1 n (.done returnValue)

inductive MjsOp (τ ρ ε : Type) where
  | yieldOp (value : τ)
  | throwOp (error : ε)
  | returnOp (value : Option ρ)
  | nextOp
  | sreturnOp (value : Option ρ)
  | cancelOp
  | settleOp (i : Nat) (outcome : Option ε)
  | flushOp (i : Nat)

def mjsStep {τ ρ ε : Type} (op : MjsOp τ ρ ε) (w : MjsWorld τ ρ ε) : MjsWorld τ ρ ε :=
  match op with
  | .yieldOp v => mjsYield v w
  | .throwOp e => completionMethod (.thr e) w
  | .returnOp v => completionMethod (.ret v) w
  | .nextOp => mjsNext w
  | .sreturnOp v => mjsReturn v w
  | .cancelOp => mjsCancelFire w
  | .settleOp i o => mjsSettleCleanup i o w
  | .flushOp i => mjsFlushCleanup i w

def mjsRun {τ ρ ε : Type} : List (MjsOp τ ρ ε) → MjsWorld τ ρ ε → MjsWorld τ ρ ε
  | [], w => w
  | op :: ops, w => mjsRun ops (mjsStep op w)

end StreamMjs
namespace StreamMjs

@[simp] theorem mjsSettle_cancelled {τ ρ ε : Type} (w : MjsWorld τ ρ ε) (id : Nat)
    (s : MjsSettlement τ ρ ε) : (mjsSettle w id s).cancelled = w.cancelled := rfl

@[simp] theorem mjsSettle_state {τ ρ ε : Type} (w : MjsWorld τ ρ ε) (id : Nat)
    (s : MjsSettlement τ ρ ε) : (mjsSettle w id s).state = w.state := rfl

@[simp] theorem mjsSubscribe_cancelled {τ ρ ε : Type} (i : Nat) (sub : MjsSub ρ ε)
    (w : MjsWorld τ ρ ε) : (mjsSubscribe i sub w).cancelled = w.cancelled := by
  unfold mjsSubscribe
  split <;> rfl

@[simp] theorem foldl_mjsSettle_cancelled {τ ρ ε : Type} (rs : List Nat)
    (s : MjsSettlement τ ρ ε) (w : MjsWorld τ ρ ε) :
    (rs.foldl (fun acc r => mjsSettle acc r s) w).cancelled = w.cancelled := by
  induction rs generalizing w with
  | nil => rfl
  | cons r rs ih => simp [List.foldl_cons, ih]

@[simp] theorem mjsApplyAct_cancelled {τ ρ ε : Type} (o : Option ε)
    (w : MjsWorld τ ρ ε) (a : MjsAct ρ ε) :
    (mjsApplyAct o w a).cancelled = w.cancelled := by
  cases a with
  | setComplete => rfl
  | settleDone id v => rfl
  | settleRejectRaw id e => rfl
  | settleRejectCleanupErr id => cases o <;> rfl

@[simp] theorem foldl_mjsApplyAct_cancelled {τ ρ ε : Type} (o : Option ε)
    (acts : List (MjsAct ρ ε)) (w : MjsWorld τ ρ ε) :
    (acts.foldl (mjsApplyAct o) w).cancelled = w.cancelled := by
  induction acts generalizing w with
  | nil => rfl
  | cons a acts ih => simp [List.foldl_cons, ih]

@[simp] theorem mjsApplySub_cancelled {τ ρ ε : Type} (o : Option ε)
    (w : MjsWorld τ ρ ε) (sub : MjsSub ρ ε) :
    (mjsApplySub o w sub).cancelled = w.cancelled := by
  cases o <;> simp [mjsApplySub]

@[simp] theorem foldl_mjsApplySub_cancelled {τ ρ ε : Type} (o : Option ε)
    (subs : List (MjsSub ρ ε)) (w : MjsWorld τ ρ ε) :
    (subs.foldl (mjsApplySub o) w).cancelled = w.cancelled := by
  induction subs generalizing w with
  | nil => rfl
  | cons sub subs ih => simp [List.foldl_cons, ih]

@[simp] theorem foldl_mjsSubscribe_cancelled {τ ρ ε : Type} (i : Nat)
    (f : Nat → MjsSub ρ ε) (rs : List Nat) (w : MjsWorld τ ρ ε) :
    (rs.foldl (fun acc r => mjsSubscribe i (f r) acc) w).cancelled = w.cancelled := by
  induction rs generalizing w with
  | nil => rfl
  | cons r rs ih => simp [List.foldl_cons, ih]

/-- The cancellation handler always leaves the `_cancelled` flag set. -/
theorem mjsCancelFire_cancelled {τ ρ ε : Type} (w : MjsWorld τ ρ ε) :
    (mjsCancelFire w).cancelled = true := by
  unfold mjsCancelFire
  cases hs : w.state <;>
    simp [mjsDoCleanup]

/-- No operation ever clears the `_cancelled` flag. -/
theorem mjsStep_cancelled {τ ρ ε : Type} (op : MjsOp τ ρ ε) (w : MjsWorld τ ρ ε)
    (h : w.cancelled = true) : (mjsStep op w).cancelled = true := by
  cases op with
  | yieldOp v =>
      simp only [mjsStep, mjsYield]
      cases hs : w.state <;> (repeat' split) <;>
        simp_all [mjsDoCleanup, mjsFresh]
  | throwOp e =>
      simp only [mjsStep, completionMethod]
      cases hs : w.state <;> (repeat' split) <;>
        simp_all [mjsDoCleanup, mjsFresh]
  | returnOp v =>
      simp only [mjsStep, completionMethod]
      cases hs : w.state <;> (repeat' split) <;>
        simp_all [mjsDoCleanup, mjsFresh]
  | nextOp =>
      simp only [mjsStep, mjsNext, h, if_true]
      simp [mjsFresh, h]
  | sreturnOp v =>
      simp only [mjsStep, mjsReturn, h, if_true]
      simp [mjsFresh, h]
  | cancelOp => exact mjsCancelFire_cancelled w
  | settleOp i o =>
      simp only [mjsStep, mjsSettleCleanup]
      cases hget : w.cleanups.get? i with
      | none => exact h
      | some inst => cases inst <;> simp_all
  | flushOp i =>
      simp only [mjsStep, mjsFlushCleanup]
      cases hget : w.cleanups.get? i with
      | none => exact h
      | some inst => cases inst <;> simp_all

theorem mjsRun_cancelled {τ ρ ε : Type} (ops : List (MjsOp τ ρ ε))
    (w : MjsWorld τ ρ ε) (h : w.cancelled = true) :
    (mjsRun ops w).cancelled = true := by
  induction ops generalizing w with
  | nil => exact h
  | cons op ops ih => exact ih _ (mjsStep_cancelled op w h)

theorem mjsNext_when_cancelled {τ ρ ε : Type} (w : MjsWorld τ ρ ε)
    (h : w.cancelled = true) :
    mjsNext w
      = mjsSettle { w with nextId := w.nextId + 1 } w.nextId
          (.rejected .cancelError) := by
  rw [mjsNext, if_pos h]
  rfl

theorem mjsReturn_when_cancelled {τ ρ ε : Type} (r : Option ρ) (w : MjsWorld τ ρ ε)
    (h : w.cancelled = true) :
    mjsReturn r w
      = mjsSettle { w with nextId := w.nextId + 1 } w.nextId
          (.rejected .cancelError) := by
  rw [mjsReturn, if_pos h]
  rfl

/--
C7. Once the external cancellation signal fires, the `_cancelled` flag is set
and stays set through every further operation; every subsequent `next()` or
`return()` call — from any state, including states with buffered values —
merely allocates its result promise and immediately settles it with a
`CancelError` rejection, leaving the state (and hence any buffered data,
which is never delivered) untouched.
-/
theorem cancellation_rejects_all_subsequent_calls {τ ρ ε : Type}
    (ops : List (MjsOp τ ρ ε)) (w : MjsWorld τ ρ ε) (r : Option ρ) :
    ((mjsRun ops (mjsCancelFire w)).cancelled = true)
    ∧ (mjsNext (mjsRun ops (mjsCancelFire w))
        = mjsSettle { mjsRun ops (mjsCancelFire w) with
              nextId := (mjsRun ops (mjsCancelFire w)).nextId + 1 }
            (mjsRun ops (mjsCancelFire w)).nextId (.rejected .cancelError))
    ∧ ((mjsNext (mjsRun ops (mjsCancelFire w))).state
        = (mjsRun ops (mjsCancelFire w)).state)
    ∧ (mjsReturn r (mjsRun ops (mjsCancelFire w))
        = mjsSettle { mjsRun ops (mjsCancelFire w) with
              nextId := (mjsRun ops (mjsCancelFire w)).nextId + 1 }
            (mjsRun ops (mjsCancelFire w)).nextId (.rejected .cancelError))
    ∧ ((mjsReturn r (mjsRun ops (mjsCancelFire w))).state
        = (mjsRun ops (mjsCancelFire w)).state) := by
  have hc := mjsRun_cancelled ops (mjsCancelFire w) (mjsCancelFire_cancelled w)
  refine ⟨hc, mjsNext_when_cancelled _ hc, ?_, mjsReturn_when_cancelled r _ hc, ?_⟩
  · rw [mjsNext_when_cancelled _ hc]
    rfl
  · rw [mjsReturn_when_cancelled r _ hc]
    rfl

end StreamMjs
namespace StreamMjs

/-- A freshly constructed `Stream.mjs` stream (no cancellation signalled, no
synchronous initializer calls, unbounded queue): `empty` state with empty
queues. -/
def mjsInitWorld (τ ρ ε : Type) : MjsWorld τ ρ ε :=
  { cancelled := false
    state := .empty [] []
    cleanups := []
    settledLog := []
    followers := []
    nextId := 0
    maxSize := none }

end StreamMjs

namespace StreamTs

/--
In the older `Stream.mjs` variant, by contrast, only the first waiter owns the
completion: with two `next()` calls waiting, `return(23)` plus a successful
cleanup settles the first with the real `{done:true, value:23}` and the second
with the synthetic `{done:true, value:undefined}` — and a bystander `next()`
issued during cleanup is settled `{done:true, value:undefined}` even when
cleanup fails, the failure being surfaced only to the owner.
-/
theorem mjs_variant_first_waiter_owns_completion :
    ((StreamMjs.mjsRun
        [.nextOp, .nextOp, .returnOp (some 23), .settleOp 0 none]
        (StreamMjs.mjsInitWorld Nat Nat Nat)).settledLog
      = [(0, .done (some 23)), (1, .done none)])
    ∧ ((StreamMjs.mjsRun
        [.returnOp (some 5), .nextOp, .nextOp, .settleOp 0 (some 9)]
        (StreamMjs.mjsInitWorld Nat Nat Nat)).settledLog
      = [(0, .rejected (.raw 9)), (1, .done none)]) := by
  constructor <;>
    simp [StreamMjs.mjsRun, StreamMjs.mjsStep, StreamMjs.mjsNext, StreamMjs.mjsYield,
      StreamMjs.completionMethod, StreamMjs.mjsReturn, StreamMjs.mjsCancelFire,
      StreamMjs.mjsSettleCleanup, StreamMjs.mjsFlushCleanup, StreamMjs.mjsSubscribe,
      StreamMjs.mjsDoCleanup, StreamMjs.mjsApplySub, StreamMjs.mjsApplyAct,
      StreamMjs.mjsDeliverCompletion, StreamMjs.mjsSettle, StreamMjs.mjsPropagate,
      StreamMjs.mjsSplitFollowers, StreamMjs.mjsFollowSettle, StreamMjs.mjsFresh,
      StreamMjs.mjsInitWorld, List.get?, List.set]

end StreamTs
